import Mathlib

/-!
Verification development for musl's condition-variable timed wait
(src/thread/pthread_cond_timedwait.c).

Shallow embedding conventions:

* There is one condition variable and one mutex in the model; the node
  back-pointers (node->cond, node->mutex) of the C struct are therefore
  dropped, everything else of `struct waiter` is kept field by field.
* Waiter nodes live in a heap `Nat → Waiter`; C pointers become
  `Option Nat` (none = NULL).  `upd` is pointwise function update.
* Collaborator calls (pthread_mutex_lock, __timedwait, futex syscalls)
  are modelled by oracle inputs carrying their return values, and every
  externally visible action is recorded in an event trace `List Ev`,
  in source order.  Reads of condition-variable fields that happen
  before any write are also recorded (readClock, readSeq), since some
  specification sentences are about their ordering.
* The self-synchronized-destruction lock (lock/unlock over 0/1/2) is
  modelled sequentially: an acquisition always eventually succeeds and
  leaves the word at 1 (uncontended) or 2 (contended); unlock swaps in
  0 and wakes iff the old value was 2, exactly as in the source.
* Loops whose termination depends on other threads (the futex wait
  loop, the signaller's leaver drain) consume an explicit list of
  observations; exhausting it yields a `stuck` outcome, and the
  intentional self-deadlock of `unwait` yields `deadlock`.
* List walks over the pointer heap take a fuel argument; fuel
  exhaustion also yields a stuck outcome (`none`).
* C `int` fields are modelled as `Int`; the one place where unsigned
  arithmetic matters (the `tv_nsec >= 1000000000UL` check, where
  `long` is converted to `unsigned long`) uses reduction mod 2^64.
-/

/-! ### Error codes (Linux generic ABI, as used by musl) and waiter states -/

def EPERM : Int := 1
def EINTR : Int := 4
def EINVAL : Int := 22
def ETIMEDOUT : Int := 110
def EOWNERDEAD : Int := 130

def WAITING : Int := 0
def SIGNALED : Int := 1
def LEAVING : Int := 2

/-! ### Data model -/

/-- The per-call waiter record (`struct waiter`).  `notify : Bool` models
the `int *notify` field: `true` means it points at the active
signaller's on-stack `ref` counter, modelled as `World.sigRef`. -/
structure Waiter where
  prev : Option Nat
  next : Option Nat
  state : Int
  barrier : Int
  requeued : Int
  mutex_ret : Int
  notify : Bool
  shared : Int
deriving DecidableEq

/-- Condition-variable fields used by the source file. -/
structure CondVar where
  c_lock : Int
  c_head : Option Nat
  c_tail : Option Nat
  c_seq : Int
  c_waiters : Int
  c_clock : Int
  c_shared : Int
deriving DecidableEq

/-- Mutex collaborator fields read or written by the source file. -/
structure MutexSt where
  m_type : Nat
  m_lock : Nat
  m_waiters : Int
deriving DecidableEq

/-- Global state: cv, mutex, waiter heap, and the cell occupied by the
active signaller's `ref` counter. -/
structure World where
  cv : CondVar
  mx : MutexSt
  heap : Nat → Waiter
  sigRef : Int

/-- Pointwise heap update at one node id. -/
def upd (h : Nat → Waiter) (i : Nat) (f : Waiter → Waiter) : Nat → Waiter :=
  fun j => if j = i then f (h j) else h j

/-! ### Events.  Futex-word addresses and the visible-action trace. -/

inductive Addr where
  | nodeState (i : Nat)
  | nodeBarrier (i : Nat)
  | cvSeqA
  | cvWaitersA
  | cvLockA
  | mutexLockA
  | refA
deriving DecidableEq

inductive Ev where
  | readClock
  | testcancel
  | readShared
  | readSeq
  | incWaiters
  | decWaiters
  | cvLock
  | cvUnlock
  | insertNode (i : Nat)
  | unlinkNode (i : Nat)
  | mutexUnlockEv
  | mutexLockEv (ret : Int)
  | mutexWaitersInc
  | mutexWaitersDec
  | notifyDec
  | twCall (a : Addr) (v : Int)
  | wake (a : Addr) (cnt : Int)
  | requeue (a : Addr) (priv : Bool) (wakeCnt passCnt : Int) (target : Addr)
deriving DecidableEq

/-- Value a contended-or-not SSD lock word holds after `lock(l)` returns:
CAS 0→1 on a free lock, otherwise the 2-marked contended acquisition. -/
def lockAcq (l : Int) : Int := if l = 0 then 1 else 2

/-! ### unwait: the cleanup routine -/

/-- Path-B successor search, step 1: `for (p=node; p->next; p=p->next);`. -/
def walkNext (fuel : Nat) (h : Nat → Waiter) (x : Nat) : Option Nat :=
  match (h x).next with
  | none => some x
  | some y =>
    match fuel with
    | 0 => none
    | f+1 => walkNext f h y

/-- Path-B successor search, step 3: `for (; p && p->requeued; p=p->prev);`.
The outer `none` is fuel exhaustion. -/
def skipRequeued (fuel : Nat) (h : Nat → Waiter) (s : Option Nat) : Option (Option Nat) :=
  match s with
  | none => some none
  | some x =>
    if (h x).requeued ≠ 0 then
      match fuel with
      | 0 => none
      | f+1 => skipRequeued f h ((h x).prev)
    else some (some x)

/-- The four-step successor selection of `unwait` path B:
walk to the tail, step off self, walk back past requeued nodes,
step off self again. -/
def pickSucc (fuel : Nat) (h : Nat → Waiter) (nid : Nat) : Option (Option Nat) :=
  match walkNext fuel h nid with
  | none => none
  | some p0 =>
    let p1 : Option Nat := if p0 = nid then (h nid).prev else some p0
    match skipRequeued fuel h p1 with
    | none => none
    | some p2 =>
      let p3 : Option Nat := if p2 = some nid then (h nid).prev else p2
      some p3

/-- Removal of the departing node from the detached list:
`if (node->next) node->next->prev = node->prev;`
`if (node->prev) node->prev->next = node->next;`. -/
def unlinkSelf (w : World) (nid : Nat) : World × List Ev :=
  let nd := w.heap nid
  let w1 : World := match nd.next with
    | some nx => { w with heap := upd w.heap nx (fun y => { y with prev := nd.prev }) }
    | none => w
  let nd1 := w1.heap nid
  let w2 : World := match nd1.prev with
    | some pv => { w1 with heap := upd w1.heap pv (fun y => { y with next := nd1.next }) }
    | none => w1
  (w2, [Ev.unlinkNode nid])

inductive UOut where
  | udone
  | udeadlock
  | ustuck
deriving DecidableEq

structure UR where
  out : UOut
  w : World
  tr : List Ev

/-- The four-line unlink of `unwait` path A, run under the cv lock:
`if (c->_c_head == node) c->_c_head = node->next;`
`else if (node->prev) node->prev->next = node->next;`
`if (c->_c_tail == node) c->_c_tail = node->prev;`
`else if (node->next) node->next->prev = node->prev;`. -/
def cvUnlink (wL : World) (nid : Nat) : World :=
  let n1 := wL.heap nid
  let wU1 : World :=
    if wL.cv.c_head = some nid then
      { wL with cv := { wL.cv with c_head := n1.next } }
    else match n1.prev with
      | some pv => { wL with heap := upd wL.heap pv (fun y => { y with next := n1.next }) }
      | none => wL
  if wU1.cv.c_tail = some nid then
    { wU1 with cv := { wU1.cv with c_tail := n1.prev } }
  else match n1.next with
    | some nx => { wU1 with heap := upd wU1.heap nx (fun y => { y with prev := n1.prev }) }
    | none => wU1

/-- Path A of `unwait` (the CAS saw WAITING, so the node is still on
the cv list): unlink under the cv lock, then fire the leaver
notification if a signaller registered one. -/
def unwait_pathA (w1 : World) (nid : Nat) : World × List Ev :=
  let l0 : Int := w1.cv.c_lock
  let wL : World := { w1 with cv := { w1.cv with c_lock := lockAcq l0 } }
  let wU2 : World := cvUnlink wL nid
  let lv : Int := wU2.cv.c_lock
  let wU3 : World := { wU2 with cv := { wU2.cv with c_lock := 0 } }
  let trU := [Ev.cvLock, Ev.unlinkNode nid, Ev.cvUnlock] ++
    (if lv = 2 then [Ev.wake Addr.cvLockA 1] else [])
  if (wU3.heap nid).notify then
    let old := wU3.sigRef
    let wN : World := { wU3 with sigRef := old - 1 }
    (wN, trU ++ [Ev.notifyDec] ++ (if old = 1 then [Ev.wake Addr.refA 1] else []))
  else (wU3, trU)

/-- Path B tail of `unwait` (the mutex was reacquired with 0 or
EOWNERDEAD): barrier hand-off, requeued compensation, successor
requeue, self unlink. -/
def unwait_pathB (w3 : World) (nid : Nat) (requeueRet : Int) (fuel : Nat)
    (tr3 : List Ev) : UR :=
  let bv : Int := (w3.heap nid).barrier
  let w4 : World := { w3 with heap := upd w3.heap nid (fun y => { y with barrier := lockAcq bv }) }
  let pD : World × List Ev :=
    if (w4.heap nid).requeued ≠ 0 then
      ({ w4 with mx := { w4.mx with m_waiters := w4.mx.m_waiters - 1 } },
       [Ev.mutexWaitersDec])
    else (w4, [])
  let w5 : World := pD.1
  match pickSucc fuel w5.heap nid with
  | none => { out := UOut.ustuck, w := w5, tr := tr3 ++ pD.2 }
  | some none =>
    let u := unlinkSelf w5 nid
    { out := UOut.udone, w := u.1, tr := tr3 ++ pD.2 ++ u.2 }
  | some (some s) =>
    let w6 : World := { w5 with heap := upd w5.heap s (fun y => { y with requeued := 1 }) }
    let w7 : World := { w6 with mx := { w6.mx with m_waiters := w6.mx.m_waiters + 1 } }
    let wakev : Int := Int.ofNat (w7.mx.m_type &&& 128)
    let trR := [Ev.mutexWaitersInc,
                Ev.requeue (Addr.nodeState s) true wakev 1 Addr.mutexLockA] ++
      (if requeueRet = -EINVAL then
        [Ev.requeue (Addr.nodeState s) false 0 1 Addr.mutexLockA] else [])
    let u := unlinkSelf w7 nid
    { out := UOut.udone, w := u.1, tr := tr3 ++ pD.2 ++ trR ++ u.2 }

/-- The `unwait` cleanup handler.  `lockRet` is the oracle result of the
`pthread_mutex_lock` collaborator call, `requeueRet` the oracle result
of the first futex-requeue syscall. -/
def unwait (w : World) (nid : Nat) (lockRet requeueRet : Int) (fuel : Nat) : UR :=
  let node := w.heap nid
  if node.shared ≠ 0 then
    let oldWaiters := w.cv.c_waiters
    let w1 : World := { w with cv := { w.cv with c_waiters := oldWaiters - 1 } }
    let tr1 := [Ev.decWaiters] ++
      (if oldWaiters = -0x7fffffff then [Ev.wake Addr.cvWaitersA 1] else [])
    let w2 : World := { w1 with heap := upd w1.heap nid (fun y => { y with mutex_ret := lockRet }) }
    { out := UOut.udone, w := w2, tr := tr1 ++ [Ev.mutexLockEv lockRet] }
  else
    let oldstate := node.state
    let w1 : World :=
      if oldstate = WAITING then
        { w with heap := upd w.heap nid (fun y => { y with state := LEAVING }) }
      else w
    let pA : World × List Ev :=
      if oldstate = WAITING then unwait_pathA w1 nid else (w1, [])
    let w2 : World := pA.1
    let w3 : World := { w2 with heap := upd w2.heap nid (fun y => { y with mutex_ret := lockRet }) }
    let tr3 := pA.2 ++ [Ev.mutexLockEv lockRet]
    if oldstate = WAITING then { out := UOut.udone, w := w3, tr := tr3 }
    else if lockRet ≠ 0 ∧ lockRet ≠ EOWNERDEAD then
      { out := UOut.udeadlock, w := w3, tr := tr3 }
    else unwait_pathB w3 nid requeueRet fuel tr3

/-! ### pthread_cond_timedwait -/

structure Timespec where
  tv_sec : Int
  tv_nsec : Int
deriving DecidableEq

/-- Conversion of a (64-bit) signed `long` to `unsigned long`, as the
usual arithmetic conversions perform it in `tv_nsec >= 1000000000UL`. -/
def toU64 (n : Int) : Int := n % (18446744073709551616 : Int)

/-- The malformed-deadline test `ts->tv_nsec >= 1000000000UL`. -/
def nsecInvalid (n : Int) : Bool := decide (1000000000 ≤ toU64 n)

/-- The whole deadline precheck `ts && ts->tv_nsec >= 1000000000UL`. -/
def tsInvalid : Option Timespec → Bool
  | none => false
  | some t => nsecInvalid t.tv_nsec

/-- Freshly initialised waiter: `struct waiter node = {.cond=c,.mutex=m};`
zero-initialises every remaining field. -/
def initWaiter : Waiter :=
  { prev := none, next := none, state := 0, barrier := 0, requeued := 0,
    mutex_ret := 0, notify := false, shared := 0 }

/-- One observed outcome of a `__timedwait` collaborator call: either it
returns `e` with the watched futex word reading `fut` at the loop test,
or the thread is cancelled during the wait (the cleanup handler runs and
the call never returns). -/
inductive TWStep where
  | ret (e : Int) (fut : Int)
  | cancel
deriving DecidableEq

inductive LoopRes where
  | ldone (e : Int)
  | lcancel
  | lstuck
deriving DecidableEq

/-- The retry loop
`do e = __timedwait(fut, seq, clock, ts, unwait, &node, !node.shared);`
`while (*fut==seq && (!e || e==EINTR));`
consuming one oracle step per call.  Exhausting the oracle while the
loop still wants to retry is `lstuck`. -/
def waitLoop (a : Addr) (sq : Int) : List TWStep → LoopRes × List Ev
  | [] => (LoopRes.lstuck, [])
  | TWStep.cancel :: _ => (LoopRes.lcancel, [Ev.twCall a sq])
  | TWStep.ret e fut :: rest =>
    if fut = sq ∧ (e = 0 ∨ e = EINTR) then
      let r := waitLoop a sq rest
      (r.1, Ev.twCall a sq :: r.2)
    else (LoopRes.ldone e, [Ev.twCall a sq])

inductive TWOut where
  | ret (code : Int)
  | cancelEarly
  | cancelWait
  | deadlock
  | stuck
deriving DecidableEq

structure TW where
  out : TWOut
  w : World
  tr : List Ev

/-- Tail of `pthread_cond_timedwait` after mutex release: the retry
loop, the unconditional `unwait(&node)`, and
`return node.mutex_ret ? node.mutex_ret : e;` with the EINTR collapse. -/
def tw_rest (w : World) (nid : Nat) (fut : Addr) (seqv : Int) (steps : List TWStep)
    (lockRet requeueRet : Int) (fuel : Nat) (tr : List Ev) : TW :=
  let lr := waitLoop fut seqv steps
  match lr.1 with
  | LoopRes.lstuck => { out := TWOut.stuck, w := w, tr := tr ++ lr.2 }
  | LoopRes.lcancel =>
    let u := unwait w nid lockRet requeueRet fuel
    match u.out with
    | UOut.udone => { out := TWOut.cancelWait, w := u.w, tr := tr ++ lr.2 ++ u.tr }
    | UOut.udeadlock => { out := TWOut.deadlock, w := u.w, tr := tr ++ lr.2 ++ u.tr }
    | UOut.ustuck => { out := TWOut.stuck, w := u.w, tr := tr ++ lr.2 ++ u.tr }
  | LoopRes.ldone e =>
    let e1 := if e = EINTR then 0 else e
    let u := unwait w nid lockRet requeueRet fuel
    match u.out with
    | UOut.udone =>
      let mr := (u.w.heap nid).mutex_ret
      { out := TWOut.ret (if mr ≠ 0 then mr else e1), w := u.w, tr := tr ++ lr.2 ++ u.tr }
    | UOut.udeadlock => { out := TWOut.deadlock, w := u.w, tr := tr ++ lr.2 ++ u.tr }
    | UOut.ustuck => { out := TWOut.stuck, w := u.w, tr := tr ++ lr.2 ++ u.tr }

/-- `pthread_cond_timedwait(c, m, ts)` for the calling thread `tid`,
placing the on-stack waiter at heap slot `nid`.  `cancelAtEntry` is the
oracle for the `pthread_testcancel()` cancellation point; `steps`,
`lockRet`, `requeueRet` feed the collaborator calls. -/
def pthread_cond_timedwait (w : World) (nid tid : Nat) (ts : Option Timespec)
    (cancelAtEntry : Bool) (steps : List TWStep) (lockRet requeueRet : Int)
    (fuel : Nat) : TW :=
  let w0 : World := { w with heap := upd w.heap nid (fun _ => initWaiter) }
  let tr0 := [Ev.readClock]
  if w0.mx.m_type &&& 15 ≠ 0 ∧ w0.mx.m_lock &&& 2147483647 ≠ tid then
    { out := TWOut.ret EPERM, w := w0, tr := tr0 }
  else if tsInvalid ts then
    { out := TWOut.ret EINVAL, w := w0, tr := tr0 }
  else
    let tr1 := tr0 ++ [Ev.testcancel]
    if cancelAtEntry then { out := TWOut.cancelEarly, w := w0, tr := tr1 }
    else
      let tr2 := tr1 ++ [Ev.readShared]
      if w0.cv.c_shared ≠ 0 then
        let wS : World := { w0 with heap := upd w0.heap nid (fun y => { y with shared := 1 }) }
        let seqv := wS.cv.c_seq
        let wS2 : World := { wS with cv := { wS.cv with c_waiters := wS.cv.c_waiters + 1 } }
        let tr3 := tr2 ++ [Ev.readSeq, Ev.incWaiters, Ev.mutexUnlockEv]
        tw_rest wS2 nid Addr.cvSeqA seqv steps lockRet requeueRet fuel tr3
      else
        let l0 : Int := w0.cv.c_lock
        let wL : World := { w0 with cv := { w0.cv with c_lock := lockAcq l0 } }
        let bset := fun (y : Waiter) => { y with barrier := 1, state := WAITING }
        let wB : World := { wL with heap := upd wL.heap nid bset }
        let oldHead := wB.cv.c_head
        let wI1 : World := { wB with heap := upd wB.heap nid (fun y => { y with next := oldHead }) }
        let wI2 : World := { wI1 with cv := { wI1.cv with c_head := some nid } }
        let wI3 :=
          if wI2.cv.c_tail = none then
            { wI2 with cv := { wI2.cv with c_tail := some nid } }
          else match oldHead with
            | some hOld =>
              { wI2 with heap := upd wI2.heap hOld (fun y => { y with prev := some nid }) }
            | none => wI2
        let lv : Int := wI3.cv.c_lock
        let wI4 : World := { wI3 with cv := { wI3.cv with c_lock := 0 } }
        let tr3 := tr2 ++ [Ev.cvLock, Ev.insertNode nid, Ev.cvUnlock] ++
          (if lv = 2 then [Ev.wake Addr.cvLockA 1] else []) ++ [Ev.mutexUnlockEv]
        tw_rest wI4 nid (Addr.nodeState nid) WAITING steps lockRet requeueRet fuel tr3

/-! ### __private_cond_signal -/

/-- The claim walk
`for (p=c->_c_tail; n && p; p=p->prev)` with the per-node CAS:
a node seen `WAITING` is claimed (`SIGNALED`, counted against `n`,
remembered in `q` if first), any other node is a leaver
(`ref++; p->notify = &ref;`).  Returns the updated heap, the exit value
of `p`, the final `ref`, and `q`. -/
def signalWalk (fuel : Nat) (h : Nat → Waiter) (p : Option Nat) (n ref : Int)
    (q : Option Nat) : Option ((Nat → Waiter) × Option Nat × Int × Option Nat) :=
  if n = 0 then some (h, p, ref, q)
  else match p with
    | none => some (h, none, ref, q)
    | some x =>
      match fuel with
      | 0 => none
      | f+1 =>
        if (h x).state = WAITING then
          signalWalk f (upd h x (fun y => { y with state := SIGNALED }))
            ((h x).prev) (n - 1) ref (match q with | none => some x | some _ => q)
        else
          signalWalk f (upd h x (fun y => { y with notify := true }))
            ((h x).prev) n (ref + 1) q

/-- The leaver drain `while ((cur = ref)) __wait(&ref, 0, cur, 1);`,
consuming one oracle observation of `ref` per test; it finishes only on
observing 0, and exhausting the oracle means it is still blocked. -/
def drainLoop : List Int → Option Unit
  | [] => none
  | v :: rest => if v = 0 then some () else drainLoop rest

/-- The wake phase
`for (p=q; p; p=q) { q = p->prev; if (!p->next) __wake(&p->state, 1, 1); unlock(&p->barrier); }`. -/
def wakePhase : Nat → (Nat → Waiter) → Option Nat → Option ((Nat → Waiter) × List Ev)
  | _, h, none => some (h, [])
  | fuel, h, some x =>
    match fuel with
    | 0 => none
    | f+1 =>
      let q' := (h x).prev
      let ev1 : List Ev := if (h x).next = none then [Ev.wake (Addr.nodeState x) 1] else []
      let bv : Int := (h x).barrier
      let h' := upd h x (fun y => { y with barrier := 0 })
      let ev2 : List Ev := if bv = 2 then [Ev.wake (Addr.nodeBarrier x) 1] else []
      match wakePhase f h' q' with
      | none => none
      | some pr => some (pr.1, ev1 ++ ev2 ++ pr.2)

/-- `__private_cond_signal(c, n)`.  `obs` is the oracle of `ref` values
observed by the leaver drain (the cell is concurrently decremented by
departing waiters); `none` is fuel or oracle exhaustion.  The walk's
final `ref` is published in `World.sigRef`, the cell the leavers'
`notify` pointers refer to. -/
def private_cond_signal (w : World) (n : Int) (obs : List Int) (fuel : Nat) :
    Option (World × List Ev) :=
  let l0 : Int := w.cv.c_lock
  let w1 : World := { w with cv := { w.cv with c_lock := lockAcq l0 } }
  match signalWalk fuel w1.heap w1.cv.c_tail n 0 none with
  | none => none
  | some (h1, pExit, ref, q) =>
    let w2 : World := { w1 with heap := h1 }
    let w3 :=
      match pExit with
      | some x =>
        let hx := w2.heap x
        let w3a : World := match hx.next with
          | some nx => { w2 with heap := upd w2.heap nx (fun y => { y with prev := none }) }
          | none => w2
        { w3a with heap := upd w3a.heap x (fun y => { y with next := none }),
                   cv := { w3a.cv with c_tail := some x } }
      | none =>
        { w2 with cv := { w2.cv with c_head := none, c_tail := none } }
    let lv : Int := w3.cv.c_lock
    let w4 : World := { w3 with cv := { w3.cv with c_lock := 0 }, sigRef := ref }
    let trA := [Ev.cvLock, Ev.cvUnlock] ++ (if lv = 2 then [Ev.wake Addr.cvLockA 1] else [])
    if ref = 0 then
      match wakePhase fuel w4.heap q with
      | none => none
      | some pr => some ({ w4 with heap := pr.1 }, trA ++ pr.2)
    else
      match drainLoop obs with
      | none => none
      | some _ =>
        match wakePhase fuel w4.heap q with
        | none => none
        | some pr => some ({ w4 with heap := pr.1, sigRef := 0 }, trA ++ pr.2)

/-- `K` successive `signal(cv, 1)` calls (no concurrent leavers, so the
drain oracle is empty), accumulating the traces. -/
def signal1s : Nat → World → Nat → Option (World × List Ev)
  | 0, w, _ => some (w, [])
  | k+1, w, fuel =>
    match private_cond_signal w 1 [] fuel with
    | none => none
    | some pr =>
      match signal1s k pr.1 fuel with
      | none => none
      | some pr2 => some (pr2.1, pr.2 ++ pr2.2)

/-- The waiter state words targeted by futex wakes in a trace. -/
def wakeStateTargets (tr : List Ev) : List Nat :=
  tr.filterMap (fun e => match e with
    | Ev.wake (Addr.nodeState i) _ => some i
    | _ => none)

/-! ### Doubly-linked-segment predicates over the pointer heap -/

/-- First element of `xs`, or `nx` if `xs` is empty. -/
def headOr (xs : List Nat) (nx : Option Nat) : Option Nat :=
  match xs with
  | [] => nx
  | y :: _ => some y

/-- Last element of `xs`, or `pr` if `xs` is empty. -/
def lastOr (xs : List Nat) (pr : Option Nat) : Option Nat :=
  match xs.getLast? with
  | none => pr
  | some a => some a

/-- `dseg h pr ids nx`: `ids` (listed head-to-tail, i.e. in `next`
direction) is a doubly-linked segment in heap `h` whose first node has
`prev = pr`, consecutive nodes point at each other, and whose last node
has `next = nx`. -/
def dseg (h : Nat → Waiter) : Option Nat → List Nat → Option Nat → Prop
  | _, [], _ => True
  | pr, x :: rest, nx =>
    (h x).prev = pr ∧ (h x).next = headOr rest nx ∧ dseg h (some x) rest nx

/-- `pchain h s xs`: starting at `s` and repeatedly following `prev`
visits exactly the nodes of `xs` and then reaches NULL. -/
def pchain (h : Nat → Waiter) : Option Nat → List Nat → Prop
  | s, [] => s = none
  | s, x :: rest => s = some x ∧ pchain h ((h x).prev) rest

instance dsegDec (h : Nat → Waiter) : ∀ pr ids nx, Decidable (dseg h pr ids nx)
  | _, [], _ => isTrue trivial
  | pr, x :: rest, nx =>
    haveI := dsegDec h (some x) rest nx
    inferInstanceAs (Decidable ((h x).prev = pr ∧ (h x).next = headOr rest nx ∧ dseg h (some x) rest nx))

instance pchainDec (h : Nat → Waiter) : ∀ s xs, Decidable (pchain h s xs)
  | s, [] => inferInstanceAs (Decidable (s = none))
  | s, x :: rest =>
    haveI := pchainDec h ((h x).prev) rest
    inferInstanceAs (Decidable (s = some x ∧ pchain h ((h x).prev) rest))

/-! ### Derived definitions used by the statements -/

/-- Heap after the wake phase has zeroed the barrier of every chain
node, in walk order. -/
def zeroBarriers (h : Nat → Waiter) : List Nat → (Nat → Waiter)
  | [] => h
  | x :: rest => zeroBarriers (upd h x (fun y => { y with barrier := 0 })) rest

/-- Events the wake phase emits along the chain `xs` (walk order),
expressed over the heap at entry to the phase. -/
def wakeEvs (h : Nat → Waiter) : List Nat → List Ev
  | [] => []
  | x :: rest =>
    ((if (h x).next = none then [Ev.wake (Addr.nodeState x) 1] else []) ++
     (if (h x).barrier = 2 then [Ev.wake (Addr.nodeBarrier x) 1] else [])) ++ wakeEvs h rest

/-- Well-formed private CV list: `ids` lists the waiters from head
(newest) to tail (oldest). -/
def cvWF (w : World) (ids : List Nat) : Prop :=
  w.cv.c_head = ids.head? ∧ w.cv.c_tail = ids.getLast? ∧ ids.Nodup ∧
  dseg w.heap none ids none

instance cvWFDec (w : World) (ids : List Nat) : Decidable (cvWF w ids) :=
  inferInstanceAs (Decidable (w.cv.c_head = ids.head? ∧ w.cv.c_tail = ids.getLast? ∧
    ids.Nodup ∧ dseg w.heap none ids none))

/-- `cvWF` together with every listed waiter being in `WAITING`. -/
def cvInv (w : World) (ids : List Nat) : Prop :=
  cvWF w ids ∧ ∀ x ∈ ids, (w.heap x).state = WAITING

/-- Documented contract of the `__timedwait` collaborator: it returns
0, `EINTR` or `ETIMEDOUT`. -/
def stepOk : TWStep → Prop
  | TWStep.ret e _ => e = 0 ∨ e = EINTR ∨ e = ETIMEDOUT
  | TWStep.cancel => True

/-- Specification-side successor selection, written from the spec's
words for comparison with the code's `pickSucc`: the node nearest the
detached list's tail that is not the departing node and not already
marked requeued (`ids` is head-to-tail, so its reverse is scanned). -/
def specSuccessor (h : Nat → Waiter) (ids : List Nat) (nid : Nat) : Option Nat :=
  (ids.reverse.filter (fun x => decide (x ≠ nid ∧ (h x).requeued = 0))).head?

/-- The requeued marks form a contiguous run at the tail end of the
detached list: scanning from the tail (`rs` is the reversed list), a
prefix is marked and the remainder is unmarked.  Protocol-reachable
detached lists have this shape because departing waiters always mark
the tailmost unmarked node. -/
def reqSplit (h : Nat → Waiter) (rs : List Nat) : Prop :=
  ∃ A B, rs = A ++ B ∧ (∀ x ∈ A, (h x).requeued ≠ 0) ∧ (∀ x ∈ B, (h x).requeued = 0)

/-! ### Concrete states used by witnesses and counterexamples -/

/-- Base world: empty private CV, plain unowned mutex. -/
def w0 : World :=
  { cv := { c_lock := 0, c_head := none, c_tail := none, c_seq := 5, c_waiters := 0,
            c_clock := 0, c_shared := 0 },
    mx := { m_type := 0, m_lock := 0, m_waiters := 0 },
    heap := fun _ => initWaiter, sigRef := 0 }

/-- Error-checking mutex (type 2) owned by tid 7, not by caller 42. -/
def wEperm : World :=
  { w0 with mx := { m_type := 2, m_lock := 7, m_waiters := 0 } }

/-- Process-shared CV. -/
def wShared : World :=
  { w0 with cv := { w0.cv with c_shared := 1 } }

/-- Two private waiters: head 2 (newer), tail 1 (older), both WAITING. -/
def heap2 : Nat → Waiter := fun j =>
  if j = 1 then { initWaiter with barrier := 1, prev := some 2 }
  else if j = 2 then { initWaiter with barrier := 1, next := some 1 }
  else initWaiter

def w2w : World :=
  { w0 with cv := { w0.cv with c_head := some 2, c_tail := some 1 }, heap := heap2 }

/-- Detached two-node chain 2 → 1, departing node 1 already SIGNALED;
the mutex is process-shared (type bit 128). -/
def heapB1 : Nat → Waiter := fun j =>
  if j = 1 then { initWaiter with state := SIGNALED, prev := some 2 }
  else if j = 2 then { initWaiter with next := some 1 }
  else initWaiter

def wB1 : World :=
  { w0 with mx := { m_type := 128, m_lock := 0, m_waiters := 5 }, heap := heapB1 }

/-- Same detached chain with a process-private mutex. -/
def wB2 : World :=
  { w0 with mx := { m_type := 0, m_lock := 0, m_waiters := 5 }, heap := heapB1 }

/-- CV list with a LEAVING waiter at the tail (1) and a WAITING one (2). -/
def heapLv : Nat → Waiter := fun j =>
  if j = 1 then { initWaiter with state := LEAVING, prev := some 2 }
  else if j = 2 then { initWaiter with next := some 1 }
  else initWaiter

def wLv : World :=
  { w0 with cv := { w0.cv with c_head := some 2, c_tail := some 1 }, heap := heapLv }

/-- Shared-path run used to exhibit the snapshot/increment order. -/
def c6run : TW := pthread_cond_timedwait wShared 1 42 none false [TWStep.ret 0 7] 0 0 10

theorem lastOr_cons (x : Nat) (rest : List Nat) (pr : Option Nat) :
    lastOr (x :: rest) pr = lastOr rest (some x) := by
  cases rest with
  | nil => simp [lastOr]
  | cons y t =>
    rw [lastOr, lastOr, List.getLast?_cons_cons]
    cases e : (y :: t).getLast? with
    | none => exact absurd (List.getLast?_eq_none_iff.mp e) (by simp)
    | some a => rfl

theorem headOr_append (u v : List Nat) (nx : Option Nat) :
    headOr (u ++ v) nx = headOr u (headOr v nx) := by
  cases u <;> simp [headOr]

theorem dseg_append (h : Nat → Waiter) (pr nx : Option Nat) (u v : List Nat) :
    dseg h pr (u ++ v) nx ↔ dseg h pr u (headOr v nx) ∧ dseg h (lastOr u pr) v nx := by
  induction u generalizing pr with
  | nil => simp [dseg, lastOr]
  | cons x rest ih =>
    show (h x).prev = pr ∧ (h x).next = headOr (rest ++ v) nx ∧ dseg h (some x) (rest ++ v) nx ↔ _
    rw [headOr_append, ih (some x), lastOr_cons]
    show _ ↔ ((h x).prev = pr ∧ (h x).next = headOr rest (headOr v nx) ∧ dseg h (some x) rest (headOr v nx)) ∧ _
    tauto

theorem dseg_congr {h h' : Nat → Waiter} {pr nx : Option Nat} {ids : List Nat}
    (hsame : ∀ x ∈ ids, (h' x).prev = (h x).prev ∧ (h' x).next = (h x).next)
    (hd : dseg h pr ids nx) : dseg h' pr ids nx := by
  induction ids generalizing pr with
  | nil => trivial
  | cons x rest ih =>
    obtain ⟨h1, h2, h3⟩ := hd
    obtain ⟨e1, e2⟩ := hsame x (by simp)
    exact ⟨e1.trans h1, e2.trans h2, ih (fun y hy => hsame y (by simp [hy])) h3⟩

theorem pchain_congr {h h' : Nat → Waiter} {s : Option Nat} {xs : List Nat}
    (hsame : ∀ x ∈ xs, (h' x).prev = (h x).prev)
    (hp : pchain h s xs) : pchain h' s xs := by
  induction xs generalizing s with
  | nil => exact hp
  | cons x rest ih =>
    obtain ⟨h1, h2⟩ := hp
    refine ⟨h1, ?_⟩
    rw [hsame x (by simp)]
    exact ih (fun y hy => hsame y (by simp [hy])) h2

theorem dseg_to_pchain_aux (h : Nat → Waiter) (ids : List Nat) :
    ∀ pr acc, dseg h pr ids none → pchain h pr acc →
    pchain h (lastOr ids pr) (ids.reverse ++ acc) := by
  induction ids with
  | nil => intro pr acc _ hp; simpa [lastOr] using hp
  | cons x rest ih =>
    intro pr acc hd hp
    obtain ⟨h1, _, h3⟩ := hd
    have hp' : pchain h (some x) (x :: acc) := ⟨rfl, h1 ▸ hp⟩
    have := ih (some x) (x :: acc) h3 hp'
    simpa [lastOr_cons, List.append_assoc] using this

/-- The reverse of a NULL-terminated doubly-linked segment is the
`prev`-chain from its last node. -/
theorem dseg_to_pchain {h : Nat → Waiter} {ids : List Nat}
    (hd : dseg h none ids none) : pchain h (lastOr ids none) ids.reverse := by
  simpa using dseg_to_pchain_aux h ids none [] hd rfl

theorem upd_same (h : Nat → Waiter) (i : Nat) (f : Waiter → Waiter) :
    upd h i f i = f (h i) := by simp [upd]

theorem upd_other (h : Nat → Waiter) (i j : Nat) (f : Waiter → Waiter) (hne : j ≠ i) :
    upd h i f j = h j := by simp [upd, hne]

/-! ### Claim C3 and C10: the entry prechecks -/

/-- C3 (counterexample).  The claim says the EPERM return happens
before any read or write of the CV state; but the source initialises
`clock = c->_c_clock` before the precheck, so a read of the CV's clock
field precedes the EPERM return: the trace of an EPERM call is exactly
the CV-clock read. -/
theorem prechecks_clock_read_cx :
    (pthread_cond_timedwait wEperm 1 42 none false [] 0 0 10).out = TWOut.ret EPERM ∧
    (pthread_cond_timedwait wEperm 1 42 none false [] 0 0 10).tr = [Ev.readClock] ∧
    Ev.readClock ∈ (pthread_cond_timedwait wEperm 1 42 none false [] 0 0 10).tr := by
  decide

/-- C3 (amended).  If the mutex is error checking and its lock word
does not name the caller, the call returns EPERM; if it passes that
check and the deadline has an invalid nanosecond field, it returns
EINVAL.  In both cases nothing is written: cv and mutex are unchanged,
no other waiter node is touched, and the trace holds only the entry
read of the CV clock field (no insert, no lock, no counter change). -/
theorem prechecks_no_cv_write (w : World) (nid tid : Nat) (ts : Option Timespec)
    (ca : Bool) (steps : List TWStep) (lR rR : Int) (fuel : Nat) :
    ((w.mx.m_type &&& 15 ≠ 0 → w.mx.m_lock &&& 2147483647 ≠ tid →
      (pthread_cond_timedwait w nid tid ts ca steps lR rR fuel).out = TWOut.ret EPERM ∧
      (pthread_cond_timedwait w nid tid ts ca steps lR rR fuel).w.cv = w.cv ∧
      (pthread_cond_timedwait w nid tid ts ca steps lR rR fuel).w.mx = w.mx ∧
      (∀ j, j ≠ nid →
        (pthread_cond_timedwait w nid tid ts ca steps lR rR fuel).w.heap j = w.heap j) ∧
      (pthread_cond_timedwait w nid tid ts ca steps lR rR fuel).tr = [Ev.readClock])) ∧
    (¬(w.mx.m_type &&& 15 ≠ 0 ∧ w.mx.m_lock &&& 2147483647 ≠ tid) →
      tsInvalid ts = true →
      (pthread_cond_timedwait w nid tid ts ca steps lR rR fuel).out = TWOut.ret EINVAL ∧
      (pthread_cond_timedwait w nid tid ts ca steps lR rR fuel).w.cv = w.cv ∧
      (pthread_cond_timedwait w nid tid ts ca steps lR rR fuel).w.mx = w.mx ∧
      (∀ j, j ≠ nid →
        (pthread_cond_timedwait w nid tid ts ca steps lR rR fuel).w.heap j = w.heap j) ∧
      (pthread_cond_timedwait w nid tid ts ca steps lR rR fuel).tr = [Ev.readClock]) := by
  constructor
  · intro h1 h2
    simp only [pthread_cond_timedwait]
    rw [if_pos ⟨h1, h2⟩]
    refine ⟨rfl, rfl, rfl, ?_, rfl⟩
    intro j hj
    exact upd_other w.heap nid j (fun _ => initWaiter) hj
  · intro h1 h2
    simp only [pthread_cond_timedwait]
    rw [if_neg h1, if_pos h2]
    refine ⟨rfl, rfl, rfl, ?_, rfl⟩
    intro j hj
    exact upd_other w.heap nid j (fun _ => initWaiter) hj

/-- C3 witness: instantiating the amended theorem at concrete inputs. -/
theorem prechecks_no_cv_write_w :
    (pthread_cond_timedwait wEperm 1 42 none false [] 0 0 10).out = TWOut.ret EPERM ∧
    (pthread_cond_timedwait w0 1 42 (some ⟨0, 2000000000⟩) false [] 0 0 10).out =
      TWOut.ret EINVAL := by
  refine ⟨((prechecks_no_cv_write wEperm 1 42 none false [] 0 0 10).1
    (by decide) (by decide)).1, ?_⟩
  exact ((prechecks_no_cv_write w0 1 42 (some ⟨0, 2000000000⟩) false [] 0 0 10).2
    (by decide) (by decide)).1

/-- C10.  A deadline with negative `tv_nsec` (any representable 64-bit
`long` value) fails the unsigned comparison `tv_nsec >= 1000000000UL`,
because the signed value converts to a huge unsigned one, so the call
returns EINVAL exactly like `tv_nsec ≥ 10^9`, before any change to the
CV, the mutex, or any other waiter node. -/
theorem negative_nsec_einval (w : World) (nid tid : Nat) (sec nsec : Int)
    (ca : Bool) (steps : List TWStep) (lR rR : Int) (fuel : Nat)
    (hlow : -9223372036854775808 ≤ nsec) (hneg : nsec < 0)
    (hp : ¬(w.mx.m_type &&& 15 ≠ 0 ∧ w.mx.m_lock &&& 2147483647 ≠ tid)) :
    nsecInvalid nsec = true ∧
    (pthread_cond_timedwait w nid tid (some ⟨sec, nsec⟩) ca steps lR rR fuel).out =
      TWOut.ret EINVAL ∧
    (pthread_cond_timedwait w nid tid (some ⟨sec, nsec⟩) ca steps lR rR fuel).w.cv = w.cv ∧
    (pthread_cond_timedwait w nid tid (some ⟨sec, nsec⟩) ca steps lR rR fuel).w.mx = w.mx ∧
    (∀ j, j ≠ nid →
      (pthread_cond_timedwait w nid tid (some ⟨sec, nsec⟩) ca steps lR rR fuel).w.heap j =
        w.heap j) := by
  have hmod : (1000000000 : Int) ≤ nsec % 18446744073709551616 := by omega
  have hinv : nsecInvalid nsec = true := by
    simp only [nsecInvalid, toU64, decide_eq_true_eq]
    exact hmod
  refine ⟨hinv, ?_⟩
  have hts : tsInvalid (some ⟨sec, nsec⟩) = true := hinv
  simp only [pthread_cond_timedwait]
  rw [if_neg hp, if_pos hts]
  exact ⟨rfl, rfl, rfl, fun j hj => upd_other w.heap nid j (fun _ => initWaiter) hj⟩

/-- C10 witness: `tv_nsec = -1` is rejected with EINVAL. -/
theorem negative_nsec_einval_w :
    nsecInvalid (-1) = true ∧
    (pthread_cond_timedwait w0 1 42 (some ⟨0, -1⟩) false [] 0 0 10).out =
      TWOut.ret EINVAL := by
  have h := negative_nsec_einval w0 1 42 0 (-1) false [] 0 0 10
    (by decide) (by decide) (by decide)
  exact ⟨h.1, h.2.1⟩

/-! ### Claim C9: unwait path B deadlocks on a bad mutex result -/

/-- C9.  On path B (the node was already SIGNALED) a mutex reacquire
result other than 0 or EOWNERDEAD makes `unwait` spin forever on fresh
dummy locks (modelled as the `udeadlock` outcome); conversely path B
completes only when the result is 0 or EOWNERDEAD. -/
theorem unwait_pathB_lock_failure_deadlocks (w : World) (nid : Nat) (lockRet rR : Int)
    (fuel : Nat) (hsh : (w.heap nid).shared = 0) (hst : (w.heap nid).state = SIGNALED) :
    (lockRet ≠ 0 → lockRet ≠ EOWNERDEAD →
      (unwait w nid lockRet rR fuel).out = UOut.udeadlock) ∧
    ((unwait w nid lockRet rR fuel).out = UOut.udone →
      lockRet = 0 ∨ lockRet = EOWNERDEAD) := by
  have hne : ¬((w.heap nid).shared ≠ 0) := by simp [hsh]
  have hnw : ¬((w.heap nid).state = WAITING) := by
    rw [hst]; simp [SIGNALED, WAITING]
  constructor
  · intro h1 h2
    simp only [unwait]
    rw [if_neg hne, if_neg hnw, if_neg hnw, if_neg hnw, if_pos ⟨h1, h2⟩]
  · intro hdone
    by_cases hc : lockRet ≠ 0 ∧ lockRet ≠ EOWNERDEAD
    · exfalso
      simp only [unwait] at hdone
      rw [if_neg hne, if_neg hnw, if_neg hnw, if_neg hnw, if_pos hc] at hdone
      exact absurd hdone (by simp)
    · tauto

/-- C9 witness: reacquire failing with EINVAL on path B deadlocks, and
a successful reacquire completes. -/
theorem unwait_pathB_lock_failure_deadlocks_w :
    (unwait wB1 1 22 0 10).out = UOut.udeadlock ∧
    ((unwait wB1 1 0 0 10).out = UOut.udone → (0 : Int) = 0 ∨ (0 : Int) = EOWNERDEAD) := by
  constructor
  · exact (unwait_pathB_lock_failure_deadlocks wB1 1 22 0 10
      (by decide) (by decide)).1 (by decide) (by decide)
  · exact (unwait_pathB_lock_failure_deadlocks wB1 1 0 0 10
      (by decide) (by decide)).2

/-! ### Claim C6: process-shared setup order -/

theorem tw_rest_tr (w : World) (nid : Nat) (fut : Addr) (sq : Int)
    (steps : List TWStep) (lR rR : Int) (fuel : Nat) (tr : List Ev) :
    ∃ t, (tw_rest w nid fut sq steps lR rR fuel tr).tr =
      tr ++ (waitLoop fut sq steps).2 ++ t := by
  simp only [tw_rest]
  split
  · exact ⟨[], by simp⟩
  all_goals split
  all_goals exact ⟨(unwait w nid lR rR fuel).tr, rfl⟩

theorem waitLoop_tr_head (a : Addr) (sq : Int) (st : TWStep) (rest : List TWStep) :
    ∃ t, (waitLoop a sq (st :: rest)).2 = Ev.twCall a sq :: t := by
  cases st with
  | cancel => exact ⟨[], rfl⟩
  | ret e f =>
    simp only [waitLoop]
    split
    · exact ⟨(waitLoop a sq rest).2, rfl⟩
    · exact ⟨[], rfl⟩

/-- C6 (counterexample).  The claim says the waiter-count increment
happens before the `cv.seq` snapshot; in the source the snapshot
`seq = c->_c_seq` precedes `a_inc(&c->_c_waiters)`.  In this
process-shared run the events before the first `readSeq` contain no
`incWaiters`, while both events occur and the call succeeds. -/
theorem shared_path_inc_order_cx :
    (c6run.tr.takeWhile (fun e => !(e == Ev.readSeq))).contains Ev.incWaiters = false ∧
    Ev.readSeq ∈ c6run.tr ∧ Ev.incWaiters ∈ c6run.tr ∧ c6run.out = TWOut.ret 0 := by
  decide

/-- C6 (amended).  On the process-shared path the call snapshots
`cv.seq` and then atomically increments `cv.waiters` (in that order),
releases the mutex, and blocks on `futex_wait(&cv.seq, snapshot,
deadline)`: the trace starts with exactly these events, and the value
passed to the first futex wait is the pre-call `cv.seq`. -/
theorem shared_path_snapshot_then_inc (w : World) (nid tid : Nat) (ts : Option Timespec)
    (st : TWStep) (rest : List TWStep) (lR rR : Int) (fuel : Nat)
    (hp : ¬(w.mx.m_type &&& 15 ≠ 0 ∧ w.mx.m_lock &&& 2147483647 ≠ tid))
    (hts : tsInvalid ts = false) (hsh : w.cv.c_shared ≠ 0) :
    ∃ t, (pthread_cond_timedwait w nid tid ts false (st :: rest) lR rR fuel).tr =
      [Ev.readClock, Ev.testcancel, Ev.readShared, Ev.readSeq, Ev.incWaiters,
       Ev.mutexUnlockEv, Ev.twCall Addr.cvSeqA w.cv.c_seq] ++ t := by
  simp only [pthread_cond_timedwait]
  rw [if_neg hp, if_neg (by simp [hts]), if_neg (by simp), if_pos hsh]
  obtain ⟨t1, ht1⟩ := tw_rest_tr _ nid Addr.cvSeqA w.cv.c_seq (st :: rest) lR rR fuel _
  obtain ⟨t2, ht2⟩ := waitLoop_tr_head Addr.cvSeqA w.cv.c_seq st rest
  refine ⟨t2 ++ t1, ?_⟩
  rw [ht1, ht2]
  simp

/-- C6 witness: the amended order at a concrete shared-CV call. -/
theorem shared_path_snapshot_then_inc_w :
    ∃ t, (pthread_cond_timedwait wShared 1 42 none false [TWStep.ret 0 7] 0 0 10).tr =
      [Ev.readClock, Ev.testcancel, Ev.readShared, Ev.readSeq, Ev.incWaiters,
       Ev.mutexUnlockEv, Ev.twCall Addr.cvSeqA 5] ++ t :=
  shared_path_snapshot_then_inc wShared 1 42 none (TWStep.ret 0 7) [] 0 0 10
    (by decide) (by decide) (by decide)

/-! ### Claims C1 and C2: mutex reacquisition and the return value -/

theorem unwait_pathB_tr_mem (w3 : World) (nid : Nat) (rR : Int) (fuel : Nat)
    (tr3 : List Ev) (e : Ev) (hm : e ∈ tr3) :
    e ∈ (unwait_pathB w3 nid rR fuel tr3).tr := by
  simp only [unwait_pathB]
  split <;> simp [hm]

theorem unwait_pathB_ret (w3 : World) (nid : Nat) (rR : Int) (fuel : Nat) (tr3 : List Ev) :
    ((unwait_pathB w3 nid rR fuel tr3).w.heap nid).mutex_ret =
      (w3.heap nid).mutex_ret := by
  simp only [unwait_pathB, unlinkSelf]
  split <;> split_ifs <;> (repeat' split) <;> (simp [upd]; try (split_ifs <;> rfl))

/-- The trace of every `unwait` branch records the
`pthread_mutex_lock` collaborator call. -/
theorem unwait_mutex_tr (w : World) (nid : Nat) (lR rR : Int) (fuel : Nat) :
    Ev.mutexLockEv lR ∈ (unwait w nid lR rR fuel).tr := by
  simp only [unwait]
  split
  · simp
  · split
    · simp
    · split
      · simp
      · exact unwait_pathB_tr_mem _ nid rR fuel _ _ (by simp)

/-- Every branch of `unwait` stores the `pthread_mutex_lock` result
into `node.mutex_ret`, and nothing later overwrites it. -/
theorem unwait_mutex_ret (w : World) (nid : Nat) (lR rR : Int) (fuel : Nat) :
    ((unwait w nid lR rR fuel).w.heap nid).mutex_ret = lR := by
  simp only [unwait]
  split
  · simp [upd]
  · split
    · simp [upd]
    · split
      · simp [upd]
      · rw [unwait_pathB_ret]
        simp [upd]

theorem tw_rest_mutex (w : World) (nid : Nat) (fut : Addr) (sq : Int)
    (steps : List TWStep) (lR rR : Int) (fuel : Nat) (tr : List Ev)
    (hout : (tw_rest w nid fut sq steps lR rR fuel tr).out = TWOut.cancelWait ∨
      ∃ code, (tw_rest w nid fut sq steps lR rR fuel tr).out = TWOut.ret code) :
    Ev.mutexLockEv lR ∈ (tw_rest w nid fut sq steps lR rR fuel tr).tr ∧
    ((tw_rest w nid fut sq steps lR rR fuel tr).w.heap nid).mutex_ret = lR := by
  simp only [tw_rest] at hout ⊢
  split at hout
  · rcases hout with h | ⟨c, h⟩ <;> simp at h
  · split at hout
    · exact ⟨by simp [unwait_mutex_tr], by simp [unwait_mutex_ret]⟩
    · rcases hout with h | ⟨c, h⟩ <;> simp_all
    · rcases hout with h | ⟨c, h⟩ <;> simp_all
  · split at hout
    · exact ⟨by simp [unwait_mutex_tr], by simp [unwait_mutex_ret]⟩
    · rcases hout with h | ⟨c, h⟩ <;> simp_all
    · rcases hout with h | ⟨c, h⟩ <;> simp_all

/-- C1.  Past the prechecks, every completing execution of
`pthread_cond_timedwait` — a normal return (signal, timeout or benign
interrupt) as well as an exit through the cancellation cleanup — runs
`unwait`, whose every branch (shared and private) performs the
`pthread_mutex_lock` collaborator call and records its result in
`node.mutex_ret`; hence the caller holds the mutex on return, by the
mutex collaborator's contract. -/
theorem timedwait_reacquires_mutex (w : World) (nid tid : Nat) (ts : Option Timespec)
    (ca : Bool) (steps : List TWStep) (lR rR : Int) (fuel : Nat)
    (hp : ¬(w.mx.m_type &&& 15 ≠ 0 ∧ w.mx.m_lock &&& 2147483647 ≠ tid))
    (hts : tsInvalid ts = false)
    (hout : (pthread_cond_timedwait w nid tid ts ca steps lR rR fuel).out =
        TWOut.cancelWait ∨
      ∃ code, (pthread_cond_timedwait w nid tid ts ca steps lR rR fuel).out =
        TWOut.ret code) :
    Ev.mutexLockEv lR ∈ (pthread_cond_timedwait w nid tid ts ca steps lR rR fuel).tr ∧
    ((pthread_cond_timedwait w nid tid ts ca steps lR rR fuel).w.heap nid).mutex_ret =
      lR := by
  simp only [pthread_cond_timedwait] at hout ⊢
  rw [if_neg hp, if_neg (by simp [hts])] at hout ⊢
  cases ca with
  | true =>
    exfalso
    rcases hout with h | ⟨c, h⟩ <;> simp at h
  | false =>
    simp only [Bool.false_eq_true, if_false] at hout ⊢
    by_cases hsh : w.cv.c_shared ≠ 0
    · rw [if_pos hsh] at hout ⊢
      exact tw_rest_mutex _ nid _ _ steps lR rR fuel _ hout
    · rw [if_neg hsh] at hout ⊢
      exact tw_rest_mutex _ nid _ _ steps lR rR fuel _ hout

/-- C1 witness: a concrete timed-out private wait reacquires the mutex. -/
theorem timedwait_reacquires_mutex_w :
    Ev.mutexLockEv 0 ∈
      (pthread_cond_timedwait w0 1 42 none false [TWStep.ret ETIMEDOUT 0] 0 0 10).tr ∧
    ((pthread_cond_timedwait w0 1 42 none false
        [TWStep.ret ETIMEDOUT 0] 0 0 10).w.heap 1).mutex_ret = 0 :=
  timedwait_reacquires_mutex w0 1 42 none false [TWStep.ret ETIMEDOUT 0] 0 0 10
    (by decide) (by decide) (Or.inr ⟨ETIMEDOUT, by decide⟩)

theorem waitLoop_ldone_mem (a : Addr) (sq : Int) (steps : List TWStep) (e : Int)
    (h : (waitLoop a sq steps).1 = LoopRes.ldone e) :
    ∃ f, TWStep.ret e f ∈ steps := by
  induction steps with
  | nil => exact absurd h (by simp [waitLoop])
  | cons st rest ih =>
    cases st with
    | cancel => exact absurd h (by simp [waitLoop])
    | ret e' f =>
      simp only [waitLoop] at h
      split at h
      · obtain ⟨f', hf⟩ := ih h
        exact ⟨f', by simp [hf]⟩
      · cases h
        exact ⟨f, by simp⟩

theorem tw_rest_code (w : World) (nid : Nat) (fut : Addr) (sq : Int)
    (steps : List TWStep) (lR rR : Int) (fuel : Nat) (tr : List Ev) (code : Int)
    (hout : (tw_rest w nid fut sq steps lR rR fuel tr).out = TWOut.ret code) :
    ∃ e, (waitLoop fut sq steps).1 = LoopRes.ldone e ∧
      code = (if lR ≠ 0 then lR else (if e = EINTR then 0 else e)) := by
  simp only [tw_rest] at hout
  split at hout
  · simp at hout
  · split at hout <;> simp at hout
  · next e heq =>
    split at hout
    · refine ⟨e, heq, ?_⟩
      rw [unwait_mutex_ret] at hout
      exact (TWOut.ret.inj hout).symm
    · simp at hout
    · simp at hout

/-- C2.  The retry loop continues exactly while the watched word still
equals the registered value and the result is 0 or EINTR; the final
EINTR is collapsed to 0, so the wait-outcome code the caller can see is
never EINTR and — under the futex collaborator's contract — is 0 or
ETIMEDOUT; and the value returned is the mutex reacquisition code
whenever that is non-zero, otherwise the wait-outcome code. -/
theorem waitloop_retry_and_return (a : Addr) (sq e0 f0 : Int) (rest0 : List TWStep)
    (w : World) (nid tid : Nat) (ts : Option Timespec) (ca : Bool)
    (steps : List TWStep) (lR rR : Int) (fuel : Nat) (code : Int) :
    (waitLoop a sq (TWStep.ret e0 f0 :: rest0) =
      if f0 = sq ∧ (e0 = 0 ∨ e0 = EINTR) then
        ((waitLoop a sq rest0).1, Ev.twCall a sq :: (waitLoop a sq rest0).2)
      else (LoopRes.ldone e0, [Ev.twCall a sq])) ∧
    (¬(w.mx.m_type &&& 15 ≠ 0 ∧ w.mx.m_lock &&& 2147483647 ≠ tid) →
     tsInvalid ts = false →
     (pthread_cond_timedwait w nid tid ts ca steps lR rR fuel).out = TWOut.ret code →
     ∃ a' sq' e, (waitLoop a' sq' steps).1 = LoopRes.ldone e ∧
       (if e = EINTR then 0 else e) ≠ EINTR ∧
       code = (if lR ≠ 0 then lR else (if e = EINTR then 0 else e)) ∧
       ((∀ s ∈ steps, stepOk s) →
         (if e = EINTR then 0 else e) = 0 ∨ (if e = EINTR then 0 else e) = ETIMEDOUT)) := by
  constructor
  · simp only [waitLoop]
  · intro hp hts hout
    simp only [pthread_cond_timedwait] at hout
    rw [if_neg hp, if_neg (by simp [hts])] at hout
    have main : ∀ a' sq', (∃ e, (waitLoop a' sq' steps).1 = LoopRes.ldone e ∧
        code = (if lR ≠ 0 then lR else (if e = EINTR then 0 else e))) →
        ∃ a' sq' e, (waitLoop a' sq' steps).1 = LoopRes.ldone e ∧
          (if e = EINTR then 0 else e) ≠ EINTR ∧
          code = (if lR ≠ 0 then lR else (if e = EINTR then 0 else e)) ∧
          ((∀ s ∈ steps, stepOk s) →
            (if e = EINTR then 0 else e) = 0 ∨ (if e = EINTR then 0 else e) = ETIMEDOUT) := by
      rintro a' sq' ⟨e, he, hc⟩
      refine ⟨a', sq', e, he, ?_, hc, ?_⟩
      · split_ifs with h
        · decide
        · exact h
      · intro hok
        obtain ⟨f, hf⟩ := waitLoop_ldone_mem a' sq' steps e he
        have := hok _ hf
        simp only [stepOk] at this
        rcases this with h | h | h <;> simp [h, EINTR, ETIMEDOUT]
    cases ca with
    | true => simp at hout
    | false =>
      simp only [Bool.false_eq_true, if_false] at hout
      by_cases hsh : w.cv.c_shared ≠ 0
      · rw [if_pos hsh] at hout
        exact main _ _ (tw_rest_code _ nid _ _ steps lR rR fuel _ code hout)
      · rw [if_neg hsh] at hout
        exact main _ _ (tw_rest_code _ nid _ _ steps lR rR fuel _ code hout)

/-- C2 witness: a wait that sees one spurious EINTR with the word still
registered, then a timeout; the caller gets ETIMEDOUT, never EINTR. -/
theorem waitloop_retry_and_return_w :
    (waitLoop (Addr.nodeState 1) 0 (TWStep.ret EINTR 0 :: [TWStep.ret ETIMEDOUT 0]) =
      ((waitLoop (Addr.nodeState 1) 0 [TWStep.ret ETIMEDOUT 0]).1,
        Ev.twCall (Addr.nodeState 1) 0 ::
          (waitLoop (Addr.nodeState 1) 0 [TWStep.ret ETIMEDOUT 0]).2)) ∧
    ∃ a' sq' e,
      (waitLoop a' sq' [TWStep.ret EINTR 0, TWStep.ret ETIMEDOUT 0]).1 =
        LoopRes.ldone e ∧
      (if e = EINTR then 0 else e) ≠ EINTR ∧
      (110 : Int) = (if (0 : Int) ≠ 0 then (0 : Int) else (if e = EINTR then 0 else e)) ∧
      ((∀ s ∈ [TWStep.ret EINTR 0, TWStep.ret ETIMEDOUT 0], stepOk s) →
        (if e = EINTR then 0 else e) = 0 ∨ (if e = EINTR then 0 else e) = ETIMEDOUT) := by
  have h := waitloop_retry_and_return (Addr.nodeState 1) 0 EINTR 0 [TWStep.ret ETIMEDOUT 0]
    w0 1 42 none false [TWStep.ret EINTR 0, TWStep.ret ETIMEDOUT 0] 0 0 10 110
  refine ⟨?_, h.2 (by decide) (by decide) (by decide)⟩
  have h1 := h.1
  rw [if_pos (by decide)] at h1
  exact h1

/-! ### Claim C7: the wake phase -/

theorem wakeEvs_congr {h h' : Nat → Waiter} {xs : List Nat}
    (hsame : ∀ y ∈ xs, (h' y).next = (h y).next ∧ (h' y).barrier = (h y).barrier) :
    wakeEvs h' xs = wakeEvs h xs := by
  induction xs with
  | nil => rfl
  | cons x rest ih =>
    obtain ⟨e1, e2⟩ := hsame x (by simp)
    simp only [wakeEvs, e1, e2]
    rw [ih (fun y hy => hsame y (by simp [hy]))]

theorem zeroBarriers_apply (h : Nat → Waiter) (xs : List Nat) (y : Nat) :
    zeroBarriers h xs y = if y ∈ xs then { h y with barrier := 0 } else h y := by
  induction xs generalizing h with
  | nil => simp [zeroBarriers]
  | cons x rest ih =>
    simp only [zeroBarriers, ih, List.mem_cons]
    by_cases hy : y ∈ rest <;> by_cases hx : y = x <;> simp [upd, hy, hx]

/-- The wake loop along the `prev`-chain `xs` from `s` terminates,
zeroes every barrier, and emits `wakeEvs h xs`. -/
theorem wakePhase_pchain (xs : List Nat) :
    ∀ (h : Nat → Waiter) (s : Option Nat) (fuel : Nat),
    pchain h s xs → xs.Nodup → xs.length ≤ fuel →
    wakePhase fuel h s = some (zeroBarriers h xs, wakeEvs h xs) := by
  induction xs with
  | nil =>
    intro h s fuel hp _ _
    have hs : s = none := hp
    subst hs
    cases fuel <;> rfl
  | cons x rest ih =>
    intro h s fuel hp hnd hlen
    obtain ⟨rfl, hp'⟩ := hp
    cases fuel with
    | zero => simp at hlen
    | succ f =>
      have hxr : x ∉ rest := by simp at hnd; exact hnd.1
      have hp'' : pchain (upd h x (fun y => { y with barrier := 0 })) ((h x).prev) rest := by
        refine pchain_congr (fun y _ => ?_) hp'
        by_cases hy : y = x <;> simp [upd, hy]
      have hrec := ih (upd h x (fun y => { y with barrier := 0 })) ((h x).prev) f hp''
        (by simp at hnd; exact hnd.2) (by simpa using hlen)
      simp only [wakePhase, hrec]
      have hev : wakeEvs (upd h x (fun y => { y with barrier := 0 })) rest = wakeEvs h rest := by
        refine wakeEvs_congr (fun y hy => ?_)
        have : y ≠ x := fun hc => hxr (hc ▸ hy)
        simp [upd, this]
      simp [wakeEvs, zeroBarriers, hev, List.append_assoc]

theorem wakeStateTargets_wakeEvs (h : Nat → Waiter) (xs : List Nat) :
    wakeStateTargets (wakeEvs h xs) =
      xs.filter (fun x => decide ((h x).next = none)) := by
  induction xs with
  | nil => rfl
  | cons x rest ih =>
    simp only [wakeEvs, wakeStateTargets, List.filterMap_append] at *
    rw [ih]
    by_cases hx : (h x).next = none <;>
      by_cases hb : (h x).barrier = 2 <;>
      simp [hx, hb, List.filter_cons, wakeStateTargets]

theorem dseg_mem_next_some {h : Nat → Waiter} {pr : Option Nat} {ids : List Nat} {z x : Nat}
    (hd : dseg h pr ids (some z)) (hx : x ∈ ids) : ∃ y, (h x).next = some y := by
  induction ids generalizing pr with
  | nil => simp at hx
  | cons a rest ih =>
    obtain ⟨_, h2, h3⟩ := hd
    rcases List.mem_cons.mp hx with rfl | hx'
    · cases rest with
      | nil => exact ⟨z, h2⟩
      | cons b t => exact ⟨b, h2⟩
    · exact ih h3 hx'

/-- C7.  Given the detached claimed chain `ids` (head-to-tail, `t` the
tail, i.e. the oldest claimed waiter), the wake phase starting from `t`
issues exactly one futex wake on a waiter state word — on `t`, the
unique chain node whose `next` is NULL — and zeroes (releases) the
barrier of every chain node. -/
theorem wake_phase_wakes_only_oldest (h : Nat → Waiter) (ids : List Nat) (t : Nat)
    (fuel : Nat) (hd : dseg h none ids none) (hnd : ids.Nodup)
    (ht : ids.getLast? = some t) (hfuel : ids.length ≤ fuel) :
    wakePhase fuel h (some t) = some (zeroBarriers h ids.reverse, wakeEvs h ids.reverse) ∧
    wakeStateTargets (wakeEvs h ids.reverse) = [t] ∧
    (∀ x ∈ ids, (zeroBarriers h ids.reverse x).barrier = 0) := by
  have hpc : pchain h (some t) ids.reverse := by
    have := dseg_to_pchain hd
    rwa [show lastOr ids none = some t by simp [lastOr, ht]] at this
  obtain ⟨ys, rfl⟩ : ∃ ys, ids = ys ++ [t] := by
    rcases List.eq_nil_or_concat' ids with rfl | ⟨L, b, rfl⟩
    · simp at ht
    · rw [List.getLast?_concat] at ht
      exact ⟨L, by simp [Option.some.inj ht]⟩
  have hwp := wakePhase_pchain (ys ++ [t]).reverse h (some t) fuel hpc
    (by simpa using List.nodup_reverse.mpr hnd) (by simpa using hfuel)
  refine ⟨hwp, ?_, ?_⟩
  · rw [wakeStateTargets_wakeEvs]
    have htn : (h t).next = none := by
      have := (dseg_append h none none ys [t]).mp hd
      exact this.2.2.1
    have hys : ∀ x ∈ ys, ∃ y, (h x).next = some y := by
      intro x hx
      have := (dseg_append h none none ys [t]).mp hd
      exact dseg_mem_next_some (z := t) (by simpa [headOr] using this.1) hx
    simp only [List.reverse_append, List.reverse_cons, List.reverse_nil, List.nil_append,
      List.cons_append, List.filter_cons, List.nil_append]
    rw [if_pos (by simp [htn])]
    have : ys.reverse.filter (fun x => decide ((h x).next = none)) = [] := by
      rw [List.filter_eq_nil_iff]
      intro x hx
      obtain ⟨y, hy⟩ := hys x (List.mem_reverse.mp hx)
      simp [hy]
    simp [List.filter_append, this]
  · intro x hx
    rw [zeroBarriers_apply]
    have hm : x = t ∨ x ∈ ys := by
      rcases List.mem_append.mp hx with h1 | h1
      · exact Or.inr h1
      · simp at h1
        exact Or.inl h1
    simp [hm]

/-- C7 witness: on the concrete detached chain 2 → 1 the wake phase
wakes only node 1 and releases both barriers. -/
theorem wake_phase_wakes_only_oldest_w :
    wakePhase 2 heapB1 (some 1) =
      some (zeroBarriers heapB1 [2, 1].reverse, wakeEvs heapB1 [2, 1].reverse) ∧
    wakeStateTargets (wakeEvs heapB1 [2, 1].reverse) = [1] ∧
    (∀ x ∈ [2, 1], (zeroBarriers heapB1 [2, 1].reverse x).barrier = 0) :=
  wake_phase_wakes_only_oldest heapB1 [2, 1] 1 2 (by decide) (by decide) (by decide)
    (by decide)

/-! ### Claim C8: leaver accounting and the drain -/

theorem signalWalk_spec (rs : List Nat) :
    ∀ (h : Nat → Waiter) (s : Option Nat) (n ref : Int) (q : Option Nat) (fuel : Nat),
    pchain h s rs → rs.Nodup → (∀ x ∈ rs, (h x).notify = false) → rs.length ≤ fuel →
    ∃ vs rest h' p' ref' q',
      rs = vs ++ rest ∧
      signalWalk fuel h s n ref q = some (h', p', ref', q') ∧
      ref' = ref + ((vs.filter (fun x => decide ((h x).state ≠ WAITING))).length : Int) ∧
      (∀ x ∈ vs, ((h' x).notify = true ↔ (h x).state ≠ WAITING)) ∧
      (∀ j, j ∉ vs → h' j = h j) := by
  induction rs with
  | nil =>
    intro h s n ref q fuel hpc _ _ _
    have hs : s = none := hpc
    subst hs
    refine ⟨[], [], h, none, ref, q, rfl, ?_, by simp, by simp, by simp⟩
    simp only [signalWalk]
    split_ifs <;> rfl
  | cons x rest ih =>
    intro h s n ref q fuel hpc hnd hnf hfuel
    obtain ⟨rfl, hpc'⟩ := hpc
    have hxr : x ∉ rest := by simp at hnd; exact hnd.1
    have hndr : rest.Nodup := by simp at hnd; exact hnd.2
    by_cases hn : n = 0
    · refine ⟨[], x :: rest, h, some x, ref, q, rfl, ?_, by simp, by simp, by simp⟩
      subst hn
      unfold signalWalk
      simp
    · cases fuel with
      | zero => simp at hfuel
      | succ f =>
        by_cases hst : (h x).state = WAITING
        · set h1 := upd h x (fun y => { y with state := SIGNALED }) with hh1
          have hpc1 : pchain h1 ((h x).prev) rest := by
            refine pchain_congr (fun y _ => ?_) hpc'
            by_cases hy : y = x <;> simp [hh1, upd, hy]
          have hnf1 : ∀ y ∈ rest, (h1 y).notify = false := by
            intro y hy
            have : y ≠ x := fun hc => hxr (hc ▸ hy)
            simp [hh1, upd, this, hnf y (by simp [hy])]
          obtain ⟨vs', rest', h', p', ref', q'', hsplit, hwalk, href, hnot, hfr⟩ :=
            ih h1 ((h x).prev) (n - 1) ref
              (match q with | none => some x | some _ => q) f hpc1 hndr hnf1
              (by simpa using hfuel)
          have hvsx : x ∉ vs' := fun hc => hxr (hsplit ▸ List.mem_append.mpr (Or.inl hc))
          refine ⟨x :: vs', rest', h', p', ref', q'', by simp [hsplit], ?_, ?_, ?_, ?_⟩
          · simp only [signalWalk, if_neg hn, if_pos hst]
            exact hwalk
          · rw [href, List.filter_cons]
            have hc1 : ¬((h x).state ≠ WAITING) := by simp [hst]
            rw [if_neg (by simpa using hc1)]
            have heq : vs'.filter (fun y => decide ((h1 y).state ≠ WAITING)) =
                vs'.filter (fun y => decide ((h y).state ≠ WAITING)) := by
              refine List.filter_congr (fun y hy => ?_)
              have : y ≠ x := fun hc => hxr (hc ▸ hsplit ▸ List.mem_append.mpr (Or.inl (hc ▸ hy)))
              simp [hh1, upd, this]
            rw [heq]
          · intro y hy
            rcases List.mem_cons.mp hy with rfl | hy'
            · rw [hfr y hvsx]
              simp [hh1, upd, hnf y (by simp), hst]
            · have hyx : y ≠ x := by
                intro hc
                exact hxr (hc ▸ hsplit ▸ List.mem_append.mpr (Or.inl (hc ▸ hy')))
              have := hnot y hy'
              rwa [show (h1 y).state = (h y).state by simp [hh1, upd, hyx]] at this
          · intro j hj
            have hj1 : j ∉ vs' := fun hc => hj (by simp [hc])
            have hjx : j ≠ x := fun hc => hj (by simp [hc])
            rw [hfr j hj1]
            simp [hh1, upd, hjx]
        · set h1 := upd h x (fun y => { y with notify := true }) with hh1
          have hpc1 : pchain h1 ((h x).prev) rest := by
            refine pchain_congr (fun y _ => ?_) hpc'
            by_cases hy : y = x <;> simp [hh1, upd, hy]
          have hnf1 : ∀ y ∈ rest, (h1 y).notify = false := by
            intro y hy
            have : y ≠ x := fun hc => hxr (hc ▸ hy)
            simp [hh1, upd, this, hnf y (by simp [hy])]
          obtain ⟨vs', rest', h', p', ref', q'', hsplit, hwalk, href, hnot, hfr⟩ :=
            ih h1 ((h x).prev) n (ref + 1) q f hpc1 hndr hnf1 (by simpa using hfuel)
          have hvsx : x ∉ vs' := fun hc => hxr (hsplit ▸ List.mem_append.mpr (Or.inl hc))
          refine ⟨x :: vs', rest', h', p', ref', q'', by simp [hsplit], ?_, ?_, ?_, ?_⟩
          · simp only [signalWalk, if_neg hn, if_neg hst]
            exact hwalk
          · rw [href, List.filter_cons]
            rw [if_pos (by simpa using hst)]
            have heq : vs'.filter (fun y => decide ((h1 y).state ≠ WAITING)) =
                vs'.filter (fun y => decide ((h y).state ≠ WAITING)) := by
              refine List.filter_congr (fun y hy => ?_)
              have : y ≠ x := fun hc => hxr (hc ▸ hsplit ▸ List.mem_append.mpr (Or.inl (hc ▸ hy)))
              simp [hh1, upd, this]
            rw [heq]
            simp
            ring
          · intro y hy
            rcases List.mem_cons.mp hy with rfl | hy'
            · rw [hfr y hvsx]
              simp [hh1, upd, hst]
            · have hyx : y ≠ x := by
                intro hc
                exact hxr (hc ▸ hsplit ▸ List.mem_append.mpr (Or.inl (hc ▸ hy')))
              have := hnot y hy'
              rwa [show (h1 y).state = (h y).state by simp [hh1, upd, hyx]] at this
          · intro j hj
            have hj1 : j ∉ vs' := fun hc => hj (by simp [hc])
            have hjx : j ≠ x := fun hc => hj (by simp [hc])
            rw [hfr j hj1]
            simp [hh1, upd, hjx]

theorem drainLoop_mem (obs : List Int) (h : drainLoop obs = some ()) : (0 : Int) ∈ obs := by
  induction obs with
  | nil => simp [drainLoop] at h
  | cons v rest ih =>
    simp only [drainLoop] at h
    split at h
    · simp_all
    · simp [ih h]

theorem cvUnlink_notify (wL : World) (nid j : Nat) :
    ((cvUnlink wL nid).heap j).notify = (wL.heap j).notify := by
  simp only [cvUnlink]
  repeat' split
  all_goals (simp only [upd]; try (split_ifs <;> simp))

theorem cvUnlink_sigRef (wL : World) (nid : Nat) :
    (cvUnlink wL nid).sigRef = wL.sigRef := by
  simp only [cvUnlink]
  repeat' split
  all_goals rfl

theorem unwait_pathA_sigRef (w1 : World) (nid : Nat)
    (hn : (w1.heap nid).notify = true) :
    (unwait_pathA w1 nid).1.sigRef = w1.sigRef - 1 ∧
    Ev.notifyDec ∈ (unwait_pathA w1 nid).2 ∧
    (w1.sigRef = 1 → Ev.wake Addr.refA 1 ∈ (unwait_pathA w1 nid).2) := by
  have hnot : ∀ (wx : World), ((cvUnlink wx nid).heap nid).notify = (wx.heap nid).notify :=
    fun wx => cvUnlink_notify wx nid nid
  simp only [unwait_pathA]
  rw [if_pos (by rw [hnot]; exact hn)]
  refine ⟨by rw [cvUnlink_sigRef], by simp, fun h1 => ?_⟩
  rw [cvUnlink_sigRef, h1]
  simp

/-- C8.  During the claim walk every node observed in a non-WAITING
state bumps `ref` and gets `notify` pointed at the signaller's counter:
the walk visits a prefix `vs` of the tail-to-head chain, its final
`ref` is exactly the number of non-WAITING nodes of `vs`, and a visited
node ends with `notify` set iff it was non-WAITING.  `signal` returns
only if that count is zero or the drain loop observed the counter at
zero (departing waiters decrement it in `unwait` path A and wake the
signaller when it reaches zero: last conjunct). -/
theorem signal_drains_leavers (w : World) (n : Int) (obs : List Int) (fuel : Nat)
    (rs : List Nat) (hpc : pchain w.heap w.cv.c_tail rs) (hnd : rs.Nodup)
    (hnf : ∀ x ∈ rs, (w.heap x).notify = false) (hfuel : rs.length ≤ fuel) :
    (∃ vs rest h' p' ref q',
      rs = vs ++ rest ∧
      signalWalk fuel w.heap w.cv.c_tail n 0 none = some (h', p', ref, q') ∧
      ref = ((vs.filter (fun x => decide ((w.heap x).state ≠ WAITING))).length : Int) ∧
      (∀ x ∈ vs, ((h' x).notify = true ↔ (w.heap x).state ≠ WAITING)) ∧
      (∀ r, private_cond_signal w n obs fuel = some r →
        ref = 0 ∨ (drainLoop obs = some () ∧ (0 : Int) ∈ obs))) ∧
    (∀ (w1 : World) (nid : Nat), (w1.heap nid).notify = true →
      (unwait_pathA w1 nid).1.sigRef = w1.sigRef - 1 ∧
      (w1.sigRef = 1 → Ev.wake Addr.refA 1 ∈ (unwait_pathA w1 nid).2)) := by
  constructor
  · obtain ⟨vs, rest, h', p', ref, q', hsplit, hwalk, href, hnot, hfr⟩ :=
      signalWalk_spec rs w.heap w.cv.c_tail n 0 none fuel hpc hnd hnf hfuel
    refine ⟨vs, rest, h', p', ref, q', hsplit, hwalk, by simpa using href, hnot, ?_⟩
    intro r hr
    simp only [private_cond_signal, hwalk] at hr
    by_cases h0 : ref = 0
    · exact Or.inl h0
    · rw [if_neg h0] at hr
      right
      cases hdr : drainLoop obs with
      | none =>
        simp only [hdr] at hr
        exact absurd hr (by simp)
      | some u =>
        cases u
        exact ⟨rfl, drainLoop_mem obs hdr⟩
  · intro w1 nid hn
    obtain ⟨h1, _, h3⟩ := unwait_pathA_sigRef w1 nid hn
    exact ⟨h1, h3⟩

/-- C8 witness: a walk over a LEAVING tail and a WAITING head counts
one leaver, sets its notify flag, and the signal only returns with a
drain that observed zero. -/
theorem signal_drains_leavers_w :
    (∃ vs rest h' p' ref q',
      ([1, 2] : List Nat) = vs ++ rest ∧
      signalWalk 10 wLv.heap wLv.cv.c_tail 1 0 none = some (h', p', ref, q') ∧
      ref = ((vs.filter (fun x => decide ((wLv.heap x).state ≠ WAITING))).length : Int) ∧
      (∀ x ∈ vs, ((h' x).notify = true ↔ (wLv.heap x).state ≠ WAITING)) ∧
      (∀ r, private_cond_signal wLv 1 [2, 1, 0] 10 = some r →
        ref = 0 ∨ (drainLoop [2, 1, 0] = some () ∧ (0 : Int) ∈ [2, 1, 0]))) ∧
    (∀ (w1 : World) (nid : Nat), (w1.heap nid).notify = true →
      (unwait_pathA w1 nid).1.sigRef = w1.sigRef - 1 ∧
      (w1.sigRef = 1 → Ev.wake Addr.refA 1 ∈ (unwait_pathA w1 nid).2)) :=
  signal_drains_leavers wLv 1 [2, 1, 0] 10 [1, 2] (by decide) (by decide) (by decide)
    (by decide)

/-! ### Claim C4: FIFO signalling -/

theorem signalWalk_one (h : Nat → Waiter) (t : Nat) (fuel : Nat)
    (hst : (h t).state = WAITING) (hf : 1 ≤ fuel) :
    signalWalk fuel h (some t) 1 0 none =
      some (upd h t (fun y => { y with state := SIGNALED }), (h t).prev, 0, some t) := by
  cases fuel with
  | zero => omega
  | succ f =>
    rw [signalWalk.eq_def]
    rw [if_neg (by decide)]
    simp only [hst, if_true, if_pos]
    rw [signalWalk.eq_def]
    simp

theorem dseg_singleton (h : Nat → Waiter) (pr nx : Option Nat) (x : Nat) :
    dseg h pr [x] nx ↔ (h x).prev = pr ∧ (h x).next = nx := by
  simp [dseg, headOr]

theorem head?_append_singleton (ys : List Nat) (t : Nat) (hne : ys ≠ []) :
    (ys ++ [t]).head? = ys.head? := by
  cases ys with
  | nil => exact absurd rfl hne
  | cons a l => simp

theorem pchain_singleton (h : Nat → Waiter) (t : Nat) (hp : (h t).prev = none) :
    pchain h (some t) [t] := ⟨rfl, hp⟩

theorem wakeStateTargets_append (a b : List Ev) :
    wakeStateTargets (a ++ b) = wakeStateTargets a ++ wakeStateTargets b := by
  simp [wakeStateTargets]

theorem wakeStateTargets_sigDone (lv : Int) :
    wakeStateTargets ([Ev.cvLock, Ev.cvUnlock] ++
      (if lv = 2 then [Ev.wake Addr.cvLockA 1] else [])) = [] := by
  split_ifs <;> rfl

/-- One `signal(cv, 1)` call on a well-formed all-WAITING list claims
exactly the tail node `t` (the oldest waiter): it becomes SIGNALED and
detached, its state futex is the only one woken, and the remaining list
`ys` is still well formed and WAITING. -/
theorem signal1_step (w : World) (ys : List Nat) (t : Nat) (fuel : Nat)
    (hwf : cvWF w (ys ++ [t])) (hwait : ∀ x ∈ ys ++ [t], (w.heap x).state = WAITING)
    (hfuel : 1 ≤ fuel) :
    ∃ w' tr, private_cond_signal w 1 [] fuel = some (w', tr) ∧
      cvWF w' ys ∧ (∀ x ∈ ys, (w'.heap x).state = WAITING) ∧
      (w'.heap t).state = SIGNALED ∧ (w'.heap t).prev = none ∧
      (w'.heap t).next = none ∧ (w'.heap t).barrier = 0 ∧
      wakeStateTargets tr = [t] ∧
      (∀ j, j ∉ ys ++ [t] → w'.heap j = w.heap j) := by
  obtain ⟨hhead, htail, hnd, hd⟩ := hwf
  have htail' : w.cv.c_tail = some t := by rw [htail, List.getLast?_concat]
  have hda := (dseg_append w.heap none none ys [t]).mp hd
  have hdt := (dseg_singleton w.heap (lastOr ys none) none t).mp hda.2
  have hst : (w.heap t).state = WAITING := hwait t (by simp)
  have hto : t ∉ ys := by
    intro hc
    exact (List.disjoint_of_nodup_append hnd) hc (by simp)
  have hwalk := signalWalk_one w.heap t fuel hst hfuel
  rcases List.eq_nil_or_concat' ys with rfl | ⟨zs, u, rfl⟩
  · -- the last waiter is claimed: list becomes empty
    have hprev : (w.heap t).prev = none := by simpa [lastOr] using hdt.1
    have hheap : ∀ j, (zeroBarriers (upd w.heap t
        (fun y => { y with state := SIGNALED })) [t]) j =
        if j = t then { w.heap t with state := SIGNALED, barrier := 0 }
        else w.heap j := by
      intro j
      rw [zeroBarriers_apply]
      by_cases hjt : j = t <;> simp [upd, hjt]
    apply Exists.intro
    apply Exists.intro
    refine ⟨?_, ?_⟩
    · simp only [private_cond_signal, htail', hwalk, hprev]
      rw [wakePhase_pchain [t] _ (some t) fuel
        (pchain_singleton _ t (by simp [upd, hprev])) (by simp) (by simpa using hfuel)]
      simp only [if_true]
      rfl
    · try dsimp only
      refine ⟨⟨by simp, by simp, by simp, by simp [dseg]⟩, by simp, ?_, ?_, ?_, ?_, ?_, ?_⟩
      · (try dsimp only); rw [hheap]; simp
      · (try dsimp only); rw [hheap]; simp [hprev]
      · (try dsimp only); rw [hheap]; simp [hdt.2]
      · (try dsimp only); rw [hheap]; simp
      · rw [wakeStateTargets_append, wakeStateTargets_sigDone, wakeStateTargets_wakeEvs]
        simp [upd, hdt.2]
      · intro j hj
        simp at hj
        try dsimp only
        rw [hheap]
        simp [hj]
  · -- list zs ++ [u] ++ [t]: u stays and becomes the new tail
    have hu_t : u ≠ t := by
      intro hc
      exact hto (by simp [hc])
    have huzs : u ∉ zs := by
      have : (zs ++ [u]).Nodup := ((List.sublist_append_left (zs ++ [u]) [t]).nodup hnd)
      intro hc
      exact (List.disjoint_of_nodup_append this) hc (by simp)
    have htzs : t ∉ zs := fun hc => hto (by simp [hc])
    have hprev : (w.heap t).prev = some u := by
      rw [hdt.1]
      simp [lastOr, List.getLast?_concat]
    have hdzs := (dseg_append w.heap none (some t) zs [u]).mp hda.1
    have hdu := (dseg_singleton w.heap (lastOr zs none) (some t) u).mp hdzs.2
    have hheap : ∀ j, (zeroBarriers (upd (upd (upd w.heap t
        (fun y => { y with state := SIGNALED })) t (fun y => { y with prev := none }))
        u (fun y => { y with next := none })) [t]) j =
        if j = t then { w.heap t with state := SIGNALED, prev := none, barrier := 0 }
        else if j = u then { w.heap u with next := none }
        else w.heap j := by
      intro j
      rw [zeroBarriers_apply]
      by_cases hjt : j = t
      · subst hjt
        simp [upd, hu_t.symm]
      · by_cases hju : j = u
        · subst hju
          simp [upd, hu_t, hjt]
        · simp [upd, hjt, hju]
    apply Exists.intro
    apply Exists.intro
    refine ⟨?_, ?_⟩
    · simp only [private_cond_signal, htail', hwalk, hprev]
      rw [show (upd w.heap t (fun y => { y with state := SIGNALED }) u).next = some t by
        rw [upd_other _ _ _ _ hu_t]; exact hdu.2]
      rw [wakePhase_pchain [t] _ (some t) fuel
        (pchain_singleton _ t (by simp [upd, hu_t.symm])) (by simp) (by simpa using hfuel)]
      simp only [if_true]
      rfl
    · try dsimp only
      refine ⟨⟨?_, ?_, ?_, ?_⟩, ?_, ?_, ?_, ?_, ?_, ?_, ?_⟩
      · show w.cv.c_head = (zs ++ [u]).head?
        rw [hhead, head?_append_singleton _ _ (by simp)]
      · show (some u : Option Nat) = (zs ++ [u]).getLast?
        rw [List.getLast?_concat]
      · exact (List.sublist_append_left (zs ++ [u]) [t]).nodup hnd
      · try dsimp only
        refine (dseg_append _ none none zs [u]).mpr ⟨?_, ?_⟩
        · refine dseg_congr (fun x hx => ?_) (by simpa [headOr] using hdzs.1)
          have hxt : x ≠ t := fun hc => htzs (hc ▸ hx)
          have hxu : x ≠ u := fun hc => huzs (hc ▸ hx)
          rw [hheap]
          simp [hxt, hxu]
        · rw [dseg_singleton, hheap]
          simp [hu_t, hdu.1]
      · intro x hx
        try dsimp only
        rw [hheap]
        rcases List.mem_append.mp hx with hx' | hx'
        · have hxt : x ≠ t := fun hc => htzs (hc ▸ hx')
          have hxu : x ≠ u := fun hc => huzs (hc ▸ hx')
          simp [hxt, hxu, hwait x (List.mem_append.mpr (Or.inl hx))]
        · simp at hx'
          subst hx'
          simp [hu_t, hwait x (List.mem_append.mpr (Or.inl (by simp)))]
      · (try dsimp only); rw [hheap]; simp
      · (try dsimp only); rw [hheap]; simp
      · (try dsimp only); rw [hheap]; simp [hdt.2]
      · (try dsimp only); rw [hheap]; simp
      · rw [wakeStateTargets_append, wakeStateTargets_sigDone, wakeStateTargets_wakeEvs]
        have : (upd (upd (upd w.heap t (fun y => { y with state := SIGNALED })) t
            (fun y => { y with prev := none })) u (fun y => { y with next := none }) t).next
            = none := by
          simp [upd, hu_t.symm, hdt.2]
        simp [this]
      · intro j hj
        simp at hj
        try dsimp only
        rw [hheap]
        simp [hj]

/-- C4.  With N private waiters all WAITING, enqueued W1..WN oldest
first (`ids` lists them head-to-tail, so W1 is the last element), K
successive `signal(cv, 1)` calls claim exactly the K oldest waiters in
order: each becomes SIGNALED, detached (prev = next = NULL, barrier
released), the wakes happen in age order W1, W2, …, WK, and the
remaining list is still a well-formed all-WAITING queue. -/
theorem signal_fifo (K : Nat) : ∀ (ids : List Nat) (w : World) (fuel : Nat),
    cvWF w ids → (∀ x ∈ ids, (w.heap x).state = WAITING) →
    K ≤ ids.length → 1 ≤ fuel →
    ∃ w' tr, signal1s K w fuel = some (w', tr) ∧
      cvWF w' (ids.take (ids.length - K)) ∧
      (∀ x ∈ ids.take (ids.length - K), (w'.heap x).state = WAITING) ∧
      (∀ x ∈ ids.drop (ids.length - K),
        (w'.heap x).state = SIGNALED ∧ (w'.heap x).prev = none ∧
        (w'.heap x).next = none ∧ (w'.heap x).barrier = 0) ∧
      wakeStateTargets tr = (ids.drop (ids.length - K)).reverse ∧
      (∀ j, j ∉ ids → w'.heap j = w.heap j) := by
  induction K with
  | zero =>
    intro ids w fuel hwf hwait _ _
    refine ⟨w, [], rfl, ?_, ?_, ?_, ?_, fun j _ => rfl⟩
    · simpa using hwf
    · simpa using hwait
    · simp
    · simp [wakeStateTargets]
  | succ K ih =>
    intro ids w fuel hwf hwait hK hfuel
    rcases List.eq_nil_or_concat' ids with rfl | ⟨ys, t, rfl⟩
    · simp at hK
    · have hto : t ∉ ys := by
        intro hc
        exact (List.disjoint_of_nodup_append hwf.2.2.1) hc (by simp)
      obtain ⟨w1, tr1, hstep, hwf1, hwait1, hstT, hpT, hnT, hbT, htr1, hfr1⟩ :=
        signal1_step w ys t fuel hwf hwait hfuel
      have hlen : ys.length + 1 = (ys ++ [t]).length := by simp
      have hK' : K ≤ ys.length := by
        have := hK
        simp at this
        omega
      obtain ⟨w', tr', hrec, hwf', hwait', hsig', htr', hfr'⟩ :=
        ih ys w1 fuel hwf1 hwait1 hK' hfuel
      have htake : (ys ++ [t]).take ((ys ++ [t]).length - (K + 1)) =
          ys.take (ys.length - K) := by
        rw [List.take_append_of_le_length (by simp)]
        congr 1
        simp
      have hdrop : (ys ++ [t]).drop ((ys ++ [t]).length - (K + 1)) =
          ys.drop (ys.length - K) ++ [t] := by
        rw [List.drop_append_of_le_length (by simp)]
        congr 2
        simp
      refine ⟨w', tr1 ++ tr', ?_, ?_, ?_, ?_, ?_, ?_⟩
      · simp only [signal1s, hstep, hrec]
      · rwa [htake]
      · rw [htake]
        exact hwait'
      · rw [hdrop]
        intro x hx
        rcases List.mem_append.mp hx with hx' | hx'
        · exact hsig' x hx'
        · simp at hx'
          subst hx'
          rw [hfr' x hto]
          exact ⟨hstT, hpT, hnT, hbT⟩
      · rw [hdrop, wakeStateTargets_append, htr1, htr']
        simp
      · intro j hj
        have hj1 : j ∉ ys := fun hc => hj (by simp [hc])
        rw [hfr' j hj1, hfr1 j hj]

/-- C4 witness: two waiters (head 2, tail 1), two signals wake 1 then
2, leaving an empty well-formed queue. -/
theorem signal_fifo_w :
    ∃ w' tr, signal1s 2 w2w 5 = some (w', tr) ∧
      cvWF w' (([2, 1] : List Nat).take (([2, 1] : List Nat).length - 2)) ∧
      (∀ x ∈ ([2, 1] : List Nat).take (([2, 1] : List Nat).length - 2),
        (w'.heap x).state = WAITING) ∧
      (∀ x ∈ ([2, 1] : List Nat).drop (([2, 1] : List Nat).length - 2),
        (w'.heap x).state = SIGNALED ∧ (w'.heap x).prev = none ∧
        (w'.heap x).next = none ∧ (w'.heap x).barrier = 0) ∧
      wakeStateTargets tr = (([2, 1] : List Nat).drop (([2, 1] : List Nat).length - 2)).reverse ∧
      (∀ j, j ∉ ([2, 1] : List Nat) → w'.heap j = w2w.heap j) :=
  signal_fifo 2 [2, 1] w2w 5 (by decide) (by decide) (by decide) (by decide)

/-! ### Claim C5: the requeue hand-off of unwait path B -/

theorem walkNext_dseg (bs : List Nat) : ∀ (h : Nat → Waiter) (pr : Option Nat) (x fuel : Nat),
    dseg h pr (x :: bs) none → bs.length ≤ fuel →
    walkNext fuel h x = (x :: bs).getLast? := by
  induction bs with
  | nil =>
    intro h pr x fuel hd _
    have hn : (h x).next = none := hd.2.1
    rw [walkNext.eq_def, hn]
    rfl
  | cons y bs' ih =>
    intro h pr x fuel hd hfuel
    have hn : (h x).next = some y := hd.2.1
    cases fuel with
    | zero => simp at hfuel
    | succ f =>
      rw [walkNext.eq_def, hn]
      rw [show (match some y with
        | none => some x
        | some y => match f + 1 with | 0 => none | Nat.succ f => walkNext f h y) =
        walkNext f h y from rfl]
      rw [ih h (some x) y f hd.2.2 (by simpa using hfuel)]
      rw [List.getLast?_cons_cons]

theorem skipRequeued_pchain (xs : List Nat) : ∀ (h : Nat → Waiter) (s : Option Nat) (fuel : Nat),
    pchain h s xs → xs.length ≤ fuel →
    skipRequeued fuel h s =
      some ((xs.dropWhile (fun x => decide ((h x).requeued ≠ 0))).head?) := by
  induction xs with
  | nil =>
    intro h s fuel hp _
    have : s = none := hp
    subst this
    cases fuel <;> rfl
  | cons x rest ih =>
    intro h s fuel hp hfuel
    obtain ⟨rfl, hp'⟩ := hp
    rw [List.dropWhile_cons]
    by_cases hr : (h x).requeued ≠ 0
    · cases fuel with
      | zero => simp at hfuel
      | succ f =>
        rw [skipRequeued.eq_def]
        simp only []
        rw [if_pos hr]
        rw [ih h ((h x).prev) f hp' (by simpa using hfuel)]
        simp [hr]
    · rw [skipRequeued.eq_def]
      simp only []
      rw [if_neg hr]
      simp [hr]

theorem dropWhile_append_all {p : Nat → Bool} (A B : List Nat)
    (hA : ∀ x ∈ A, p x = true) (hB : ∀ x ∈ B, p x = false) :
    (A ++ B).dropWhile p = B := by
  induction A with
  | nil =>
    cases B with
    | nil => rfl
    | cons b B' =>
      simp only [List.nil_append, List.dropWhile_cons]
      rw [hB b (by simp)]
      simp
  | cons a A' ih =>
    simp only [List.cons_append, List.dropWhile_cons]
    rw [hA a (by simp)]
    simp only [if_true]
    exact ih (fun x hx => hA x (by simp [hx]))

theorem pchain_prev (cs : List Nat) : ∀ (h : Nat → Waiter) (s : Option Nat) (x : Nat)
    (ds : List Nat), pchain h s (cs ++ x :: ds) → (h x).prev = ds.head? := by
  induction cs with
  | nil =>
    intro h s x ds hp
    obtain ⟨_, hp'⟩ := hp
    cases ds with
    | nil => exact hp'
    | cons d ds' => exact hp'.1
  | cons c cs' ih =>
    intro h s x ds hp
    exact ih h ((h c).prev) x ds hp.2

/-- The code's four-step successor selection equals the
specification's description — the node nearest the detached list's
tail that is neither the departing node nor already requeued —
whenever the requeued marks form a tail run (`reqSplit`). -/
theorem pickSucc_eq_spec (h : Nat → Waiter) (ids : List Nat) (nid : Nat) (fuel : Nat)
    (hd : dseg h none ids none) (hnd : ids.Nodup) (hmem : nid ∈ ids)
    (hreq : reqSplit h ids.reverse) (hfuel : ids.length ≤ fuel) :
    pickSucc fuel h nid = some (specSuccessor h ids nid) := by
  obtain ⟨A, B, hAB, hA, hB⟩ := hreq
  have hndr : ids.reverse.Nodup := List.nodup_reverse.mpr hnd
  have hnenil : ids ≠ [] := List.ne_nil_of_mem hmem
  obtain ⟨t, hgl⟩ : ∃ t, ids.getLast? = some t := by
    cases e : ids.getLast? with
    | none => exact absurd (List.getLast?_eq_none_iff.mp e) hnenil
    | some a => exact ⟨a, rfl⟩
  have hrevh : ids.reverse.head? = some t := by
    rw [List.head?_reverse, hgl]
  obtain ⟨rrest, hrrest⟩ : ∃ rrest, ids.reverse = t :: rrest := by
    cases e : ids.reverse with
    | nil =>
      rw [e] at hrevh
      simp at hrevh
    | cons a l =>
      rw [e] at hrevh
      simp at hrevh
      exact ⟨l, by rw [hrevh]⟩
  have hpc : pchain h (some t) ids.reverse := by
    have hp := dseg_to_pchain hd
    rwa [show lastOr ids none = some t by simp [lastOr, hgl]] at hp
  obtain ⟨as, bs, hasbs⟩ := List.append_of_mem hmem
  have hwn : walkNext fuel h nid = some t := by
    have hd2 := (dseg_append h none none as (nid :: bs)).mp (hasbs ▸ hd)
    rw [walkNext_dseg bs h _ nid fuel hd2.2
      (by
        have := hfuel
        rw [hasbs] at this
        simp at this
        omega)]
    rw [← hgl, hasbs]
    exact (List.getLast?_append_of_ne_nil as (by simp)).symm
  have hfuelr : ids.reverse.length ≤ fuel := by simpa using hfuel
  simp only [pickSucc, hwn]
  by_cases hnt : t = nid
  · -- the departing node is the tail itself
    subst hnt
    rw [if_pos rfl]
    have hp' : pchain h ((h t).prev) rrest := (hrrest ▸ hpc).2
    rw [skipRequeued_pchain rrest h _ fuel hp'
      (by
        rw [hrrest] at hfuelr
        simp at hfuelr
        omega)]
    have htnr : t ∉ rrest := by
      have := hrrest ▸ hndr
      exact (List.nodup_cons.mp this).1
    cases A with
    | nil =>
      -- nothing requeued yet
      have hBr : B = t :: rrest := by
        rw [← hrrest]
        simpa using hAB.symm
      have hdw : rrest.dropWhile (fun x => decide ((h x).requeued ≠ 0)) = rrest := by
        refine dropWhile_append_all [] rrest (by simp) (fun x hx => ?_)
        simp [hB x (by rw [hBr]; simp [hx])]
      rw [hdw]
      dsimp only
      have hp3 : ¬(rrest.head? = some t) := by
        cases rrest with
        | nil => simp
        | cons a l =>
          simp only [List.head?_cons]
          intro hc
          exact htnr (by simp [Option.some.inj hc] )
      rw [if_neg hp3]
      have hspec : specSuccessor h ids t = rrest.head? := by
        simp only [specSuccessor, hrrest, List.filter_cons]
        rw [if_neg (by simp)]
        rw [List.filter_eq_self.mpr (fun a ha => by
          have hat : a ≠ t := fun hc => htnr (hc ▸ ha)
          simp [hat, hB a (by rw [hBr]; simp [ha])])]
      rw [hspec]
    | cons a A' =>
      -- the tail (and possibly more) is already requeued
      have hat : a = t := by
        have : (a :: A' ++ B).head? = some t := by rw [← hAB, hrrest]; simp
        simpa using this
      subst hat
      have hrrAB : rrest = A' ++ B := by
        have : a :: (A' ++ B) = a :: rrest := by
          rw [← List.cons_append, ← hAB, hrrest]
        exact (List.cons.inj this).2.symm
      have hdw : rrest.dropWhile (fun x => decide ((h x).requeued ≠ 0)) = B := by
        rw [hrrAB]
        refine dropWhile_append_all A' B (fun x hx => ?_) (fun x hx => ?_)
        · simp [hA x (by simp [hx])]
        · simp [hB x hx]
      rw [hdw]
      dsimp only
      have htB : a ∉ B := by
        exact fun hc => (List.disjoint_of_nodup_append (hAB ▸ hndr)) (by simp) hc
      have hp3 : ¬(B.head? = some a) := by
        cases B with
        | nil => simp
        | cons b B' =>
          simp only [List.head?_cons]
          intro hc
          exact htB (by simp [Option.some.inj hc])
      rw [if_neg hp3]
      have hspec : specSuccessor h ids a = B.head? := by
        simp only [specSuccessor, hAB, List.filter_append]
        rw [List.filter_eq_nil_iff.mpr (fun x hx => by
          simp
          intro _
          exact hA x hx)]
        rw [List.filter_eq_self.mpr (fun x hx => by
          have : x ≠ a := fun hc => htB (hc ▸ hx)
          simp [this, hB x hx])]
        simp
      rw [hspec]
  · -- the tail is another node
    rw [if_neg (by exact fun hc => hnt hc)]
    rw [skipRequeued_pchain ids.reverse h (some t) fuel hpc hfuelr]
    have hdw : ids.reverse.dropWhile (fun x => decide ((h x).requeued ≠ 0)) = B := by
      rw [hAB]
      refine dropWhile_append_all A B (fun x hx => ?_) (fun x hx => ?_)
      · simp [hA x hx]
      · simp [hB x hx]
    rw [hdw]
    cases B with
    | nil =>
      dsimp only
      rw [if_neg (by simp)]
      have hspec : specSuccessor h ids nid = none := by
        simp only [specSuccessor, hAB, List.filter_append]
        rw [List.filter_eq_nil_iff.mpr (fun x hx => by
          simp
          intro _
          exact hA x hx)]
        simp
      rw [hspec]
      simp
    | cons b B' =>
      dsimp only
      by_cases hbn : b = nid
      · subst hbn
        rw [if_pos (by simp)]
        have hprev : (h b).prev = B'.head? := by
          refine pchain_prev A h (some t) b B' ?_
          rwa [hAB] at hpc
        have hbB' : b ∉ B' := by
          have : (b :: B').Nodup := by
            have := hAB ▸ hndr
            exact ((List.sublist_append_right A (b :: B')).nodup this)
          exact (List.nodup_cons.mp this).1
        have hspec : specSuccessor h ids b = B'.head? := by
          simp only [specSuccessor, hAB, List.filter_append, List.filter_cons]
          rw [List.filter_eq_nil_iff.mpr (fun x hx => by
            simp
            intro _
            exact hA x hx)]
          rw [if_neg (by simp)]
          rw [List.filter_eq_self.mpr (fun x hx => by
            have : x ≠ b := fun hc => hbB' (hc ▸ hx)
            simp [this, hB x (by simp [hx])])]
          simp
        rw [hspec, hprev]
      · rw [if_neg (by simp [hbn])]
        have hspec : specSuccessor h ids nid = some b := by
          simp only [specSuccessor, hAB, List.filter_append, List.filter_cons]
          rw [List.filter_eq_nil_iff.mpr (fun x hx => by
            simp
            intro _
            exact hA x hx)]
          rw [if_pos (by simp [hbn, hB b (by simp)])]
          simp
        rw [hspec]
        simp

theorem specSuccessor_congr {h h' : Nat → Waiter} (ids : List Nat) (nid : Nat)
    (hsame : ∀ x ∈ ids, (h' x).requeued = (h x).requeued) :
    specSuccessor h' ids nid = specSuccessor h ids nid := by
  unfold specSuccessor
  congr 1
  apply List.filter_congr
  intro x hx
  rw [hsame x (List.mem_reverse.mp hx)]

theorem reqSplit_congr {h h' : Nat → Waiter} (rs : List Nat)
    (hsame : ∀ x ∈ rs, (h' x).requeued = (h x).requeued)
    (hr : reqSplit h rs) : reqSplit h' rs := by
  obtain ⟨A, B, hAB, hA, hB⟩ := hr
  refine ⟨A, B, hAB, fun x hx => ?_, fun x hx => ?_⟩
  · rw [hsame x (by rw [hAB]; exact List.mem_append.mpr (Or.inl hx))]
    exact hA x hx
  · rw [hsame x (by rw [hAB]; exact List.mem_append.mpr (Or.inr hx))]
    exact hB x hx

theorem unlinkSelf_tr (w : World) (nid : Nat) :
    (unlinkSelf w nid).2 = [Ev.unlinkNode nid] := rfl

theorem unlinkSelf_requeued (w : World) (nid j : Nat) :
    ((unlinkSelf w nid).1.heap j).requeued = (w.heap j).requeued := by
  simp only [unlinkSelf]
  repeat' split
  all_goals simp [upd]
  all_goals split_ifs <;> rfl

theorem unwait_pathB_spec (w3 : World) (nid : Nat) (rR : Int) (fuel : Nat) (tr3 : List Ev)
    (ids : List Nat)
    (hd : dseg w3.heap none ids none) (hnd : ids.Nodup) (hmem : nid ∈ ids)
    (hreq : reqSplit w3.heap ids.reverse) (hfuel : ids.length ≤ fuel) :
    (unwait_pathB w3 nid rR fuel tr3).out = UOut.udone ∧
    (match specSuccessor w3.heap ids nid with
     | none => (unwait_pathB w3 nid rR fuel tr3).tr =
         tr3 ++ (if (w3.heap nid).requeued ≠ 0 then [Ev.mutexWaitersDec] else ([] : List Ev)) ++
         [Ev.unlinkNode nid]
     | some s =>
         ((unwait_pathB w3 nid rR fuel tr3).w.heap s).requeued = 1 ∧
         (unwait_pathB w3 nid rR fuel tr3).tr =
         tr3 ++ (if (w3.heap nid).requeued ≠ 0 then [Ev.mutexWaitersDec] else ([] : List Ev)) ++
         [Ev.mutexWaitersInc,
          Ev.requeue (Addr.nodeState s) true (Int.ofNat (w3.mx.m_type &&& 128)) 1 Addr.mutexLockA] ++
         (if rR = -EINVAL then [Ev.requeue (Addr.nodeState s) false 0 1 Addr.mutexLockA] else ([] : List Ev)) ++
         [Ev.unlinkNode nid]) := by
  have hsame : ∀ j, ((upd w3.heap nid (fun y => { y with barrier := lockAcq ((w3.heap nid).barrier) })) j).prev = (w3.heap j).prev ∧
      ((upd w3.heap nid (fun y => { y with barrier := lockAcq ((w3.heap nid).barrier) })) j).next = (w3.heap j).next ∧
      ((upd w3.heap nid (fun y => { y with barrier := lockAcq ((w3.heap nid).barrier) })) j).requeued = (w3.heap j).requeued := by
    intro j
    by_cases hj : j = nid <;> simp [upd, hj]
  have hpick : pickSucc fuel (upd w3.heap nid (fun y => { y with barrier := lockAcq ((w3.heap nid).barrier) })) nid = some (specSuccessor w3.heap ids nid) := by
    rw [pickSucc_eq_spec _ ids nid fuel
      (dseg_congr (fun x _ => ⟨(hsame x).1, (hsame x).2.1⟩) hd) hnd hmem
      (reqSplit_congr ids.reverse (fun x _ => (hsame x).2.2) hreq) hfuel]
    rw [specSuccessor_congr ids nid (fun x _ => (hsame x).2.2)]
  cases hs : specSuccessor w3.heap ids nid with
  | none =>
    rw [hs] at hpick
    simp only [unwait_pathB]
    simp only [(hsame nid).2.2]
    by_cases hrq : (w3.heap nid).requeued ≠ 0
    · rw [if_pos hrq]
      dsimp only
      rw [hpick]
      dsimp only [unlinkSelf]
      exact ⟨rfl, by simp [List.append_assoc, hrq, unlinkSelf_tr]⟩
    · rw [if_neg hrq]
      dsimp only
      rw [hpick]
      dsimp only [unlinkSelf]
      exact ⟨rfl, by simp [List.append_assoc, hrq, unlinkSelf_tr]⟩
  | some s =>
    rw [hs] at hpick
    simp only [unwait_pathB]
    simp only [(hsame nid).2.2]
    by_cases hrq : (w3.heap nid).requeued ≠ 0
    · rw [if_pos hrq]
      dsimp only
      rw [hpick]
      dsimp only
      refine ⟨rfl, ?_, by simp [List.append_assoc, hrq, unlinkSelf_tr]⟩
      rw [unlinkSelf_requeued]
      simp [upd]
    · rw [if_neg hrq]
      dsimp only
      rw [hpick]
      dsimp only
      refine ⟨rfl, ?_, by simp [List.append_assoc, hrq, unlinkSelf_tr]⟩
      rw [unlinkSelf_requeued]
      simp [upd]

/-- C5.  A signaled waiter departing through `unwait` path B selects as
requeue successor the node nearest the tail of the detached list that
is neither itself nor already marked requeued; if one exists it sets
that requeued flag, increments the mutex waiter count, and issues a
single private-flagged futex requeue from the successor state word to
the mutex lock word with requeue-count 1 and wake-count
`m_type & 128` — 0 for a process-private mutex, 128 for a
process-shared one (no separate FUTEX_WAKE); a -EINVAL result from
that call triggers one fallback non-private requeue with wake-count 0. -/
theorem unwait_requeues_tail_successor (w : World) (nid : Nat) (lockRet requeueRet : Int)
    (fuel : Nat) (ids : List Nat)
    (hsh : (w.heap nid).shared = 0)
    (hst : (w.heap nid).state ≠ WAITING)
    (hlk : lockRet = 0 ∨ lockRet = EOWNERDEAD)
    (hd : dseg w.heap none ids none) (hnd : ids.Nodup) (hmem : nid ∈ ids)
    (hreq : reqSplit w.heap ids.reverse) (hfuel : ids.length ≤ fuel) :
    (unwait w nid lockRet requeueRet fuel).out = UOut.udone ∧
    (match specSuccessor w.heap ids nid with
     | none => (unwait w nid lockRet requeueRet fuel).tr =
         [Ev.mutexLockEv lockRet] ++
         (if (w.heap nid).requeued ≠ 0 then [Ev.mutexWaitersDec] else ([] : List Ev)) ++
         [Ev.unlinkNode nid]
     | some s =>
         ((unwait w nid lockRet requeueRet fuel).w.heap s).requeued = 1 ∧
         (unwait w nid lockRet requeueRet fuel).tr =
         [Ev.mutexLockEv lockRet] ++
         (if (w.heap nid).requeued ≠ 0 then [Ev.mutexWaitersDec] else ([] : List Ev)) ++
         [Ev.mutexWaitersInc,
          Ev.requeue (Addr.nodeState s) true (Int.ofNat (w.mx.m_type &&& 128)) 1 Addr.mutexLockA] ++
         (if requeueRet = -EINVAL then [Ev.requeue (Addr.nodeState s) false 0 1 Addr.mutexLockA] else ([] : List Ev)) ++
         [Ev.unlinkNode nid]) := by
  have hns : ¬((w.heap nid).shared ≠ 0) := by simp [hsh]
  have hnl : ¬(lockRet ≠ 0 ∧ lockRet ≠ EOWNERDEAD) := by
    rcases hlk with h | h <;> simp [h]
  have hsame3 : ∀ j, ((upd w.heap nid (fun y => { y with mutex_ret := lockRet })) j).prev = (w.heap j).prev ∧
      ((upd w.heap nid (fun y => { y with mutex_ret := lockRet })) j).next = (w.heap j).next ∧
      ((upd w.heap nid (fun y => { y with mutex_ret := lockRet })) j).requeued = (w.heap j).requeued := by
    intro j
    by_cases hj : j = nid <;> simp [upd, hj]
  have hmain := unwait_pathB_spec
    { w with heap := upd w.heap nid (fun y => { y with mutex_ret := lockRet }) }
    nid requeueRet fuel [Ev.mutexLockEv lockRet] ids
    (dseg_congr (fun x _ => ⟨(hsame3 x).1, (hsame3 x).2.1⟩) hd) hnd hmem
    (reqSplit_congr ids.reverse (fun x _ => (hsame3 x).2.2) hreq) hfuel
  have hspec : specSuccessor (upd w.heap nid (fun y => { y with mutex_ret := lockRet })) ids nid = specSuccessor w.heap ids nid :=
    specSuccessor_congr ids nid (fun x _ => (hsame3 x).2.2)
  rcases hmain with ⟨hout, hrest⟩
  dsimp only at hrest
  simp only [hspec, (hsame3 nid).2.2] at hrest
  simp only [unwait, if_neg hns, if_neg hst, if_neg hnl, List.nil_append]
  cases hs : specSuccessor w.heap ids nid with
  | none =>
    simp only [hs] at hrest
    exact ⟨hout, hrest⟩
  | some s =>
    simp only [hs] at hrest
    exact ⟨hout, hrest⟩

/-- C5 counterexample: on the detached two-node chain of `wB1`, whose
mutex is process-shared (`m_type = 128`), the departing signaled waiter
1 issues the private-flagged futex requeue with wake-count 128 aimed at
successor 2 — the trace holds no FUTEX_WAKE at all, refuting the
claimed separate FUTEX_WAKE of the successor. -/
theorem shared_mutex_requeue_not_wake_cx :
    (unwait wB1 1 0 0 10).tr =
      [Ev.mutexLockEv 0, Ev.mutexWaitersInc,
       Ev.requeue (Addr.nodeState 2) true 128 1 Addr.mutexLockA,
       Ev.unlinkNode 1] := by decide

/-- Witness for C5 on the concrete chain `wB2` (process-private mutex):
successor 2 is marked requeued and the single futex call is the private
requeue with wake-count 0 and requeue-count 1. -/
theorem unwait_requeues_tail_successor_w :
    (unwait wB2 1 0 0 10).out = UOut.udone ∧
    ((unwait wB2 1 0 0 10).w.heap 2).requeued = 1 ∧
    (unwait wB2 1 0 0 10).tr =
      [Ev.mutexLockEv 0, Ev.mutexWaitersInc,
       Ev.requeue (Addr.nodeState 2) true 0 1 Addr.mutexLockA,
       Ev.unlinkNode 1] := by
  have h := unwait_requeues_tail_successor wB2 1 0 0 10 [2, 1]
    (by decide) (by decide) (Or.inl rfl) (by decide) (by decide) (by decide)
    ⟨[], [1, 2], rfl, by decide, by decide⟩ (by decide)
  exact ⟨h.1, by decide, by decide⟩
